import Mathlib

/-!
# urlshort: `MapHandler`, `parseYAML`, `YAMLHandler`

A shallow embedding of `students/dzlzv/handler/handler.go`.

* Go strings are Lean `String`s (valid UTF-8 text); where the Go library works on
  bytes (`hexEscapeNonASCII`, `url.escape`) the UTF-8 bytes of each character are
  spelled out.
* `map[string]string` is an association list read with `GoMap.get` (the comma-ok
  lookup) and written with `GoMap.set` (assignment `m[k] = v`). A Go map is shared by
  reference: `MapHandler.serve` runs the closure on the map and the world, with a
  fallback (`SharingHandler`) that may hold the same map; `MapHandler` is the handler
  for a fallback that holds no reference to it.
* A `World` is what a handler can act on besides: the `http.ResponseWriter` it was
  handed and the lines printed through the standard logger.
* The three functions of the file are `MapHandler`, `parseYAML` and `YAMLHandler`.
  What they call in the Go libraries is modelled beside them: `http.Redirect` with
  `(*url.URL).EscapedPath`, `path.Clean`, `path.Split`, `hexEscapeNonASCII` and
  `htmlEscape` follows `net/http`, `net/url` and `path`; `url.Parse` and
  `yaml.Unmarshal` are parameters, and `yamlUnmarshal` follows the decoder of
  `gopkg.in/yaml.v2` on parsed documents.
-/

namespace Urlshort

/-! ## Go maps -/

/-- Go `map[string]string`. -/
abbrev GoMap := List (String × String)

/-- The comma-ok lookup `v, ok := m[k]`: `none` is `ok == false`. -/
def GoMap.get (m : GoMap) (k : String) : Option String :=
  match m with
  | [] => none
  | (k1, v1) :: rest => if k1 = k then some v1 else GoMap.get rest k

/-- The assignment `m[k] = v`: overwrite the entry of `k`, or add one. -/
def GoMap.set (m : GoMap) (k v : String) : GoMap :=
  match m with
  | [] => [(k, v)]
  | (k1, v1) :: rest => if k1 = k then (k1, v) :: rest else (k1, v1) :: GoMap.set rest k v

/-- Go `len(m)`. -/
def GoMap.len (m : GoMap) : Nat := m.length

/-- The keys of the map. -/
def GoMap.keys (m : GoMap) : List String := m.map Prod.fst

/-! ## `net/http`: requests, response writers, handlers -/

/-- Go `http.Header`: canonical key to values. -/
abbrev Header := List (String × List String)

/-- The direct map read `h[key]` with comma-ok. -/
def Header.get (h : Header) (key : String) : Option (List String) :=
  match h with
  | [] => none
  | (k1, v1) :: rest => if k1 = key then some v1 else Header.get rest key

/-- Go `h.Set(key, value)` for a key already in canonical form. -/
def Header.Set (h : Header) (key value : String) : Header :=
  match h with
  | [] => [(key, [value])]
  | (k1, v1) :: rest =>
    if k1 = key then (k1, [value]) :: rest else (k1, v1) :: Header.Set rest key value

/-- The parts of `*http.Request` a handler can read here. -/
structure Request where
  Method : String
  /-- The field `r.URL.Path`. -/
  Path : String
  /-- The field `r.URL.RawPath`: empty unless the path came in an encoding other than
  the default one. -/
  RawPath : String
  /-- The field `r.URL.RawQuery`. -/
  RawQuery : String
  Host : String
  Header : Header

/-- An `http.ResponseWriter`: the header map of `Header()`, what `WriteHeader` sent
(status code and the headers as they were then), and the bytes given to `Write`. -/
structure ResponseWriter where
  header : Header
  sent : Option (Nat × Header)
  body : String

/-- Go `w.WriteHeader(code)`: the first call sends the status line and the headers. -/
def ResponseWriter.WriteHeader (w : ResponseWriter) (code : Nat) : ResponseWriter :=
  match w.sent with
  | some _ => w
  | none => { w with sent := some (code, w.header) }

/-- Go `w.Write(data)`: sends `200` first when no header was written yet. -/
def ResponseWriter.Write (w : ResponseWriter) (data : String) : ResponseWriter :=
  let w1 := w.WriteHeader 200
  { w1 with body := w1.body ++ data }

/-- A response writer nothing was done to. -/
def ResponseWriter.fresh : ResponseWriter := { header := [], sent := none, body := "" }

/-- The status code of the response, once sent. -/
def ResponseWriter.status (w : ResponseWriter) : Option Nat := w.sent.map Prod.fst

/-- The values of the header `key` in the response as sent. -/
def ResponseWriter.sentHeader (w : ResponseWriter) (key : String) : Option (List String) :=
  match w.sent with
  | none => none
  | some (_, h) => Header.get h key

/-- What serving a request acts on: the response writer and the standard logger. -/
structure World where
  w : ResponseWriter
  log : List String

/-- Go `log.Printf` with the message already formatted. -/
def World.Printf (world : World) (msg : String) : World :=
  { world with log := world.log ++ [msg] }

/-- Go `http.Handler`: `ServeHTTP(w, r)`. -/
abbrev Handler := World → Request → World

/-- Go `http.StatusSeeOther`. -/
def StatusSeeOther : Nat := 303

/-- Go `http.StatusText` on the redirection codes; the empty string elsewhere. -/
def StatusText (code : Nat) : String :=
  if code = 300 then "Multiple Choices"
  else if code = 301 then "Moved Permanently"
  else if code = 302 then "Found"
  else if code = 303 then "See Other"
  else if code = 304 then "Not Modified"
  else if code = 305 then "Use Proxy"
  else if code = 307 then "Temporary Redirect"
  else if code = 308 then "Permanent Redirect"
  else ""

/-! ## `path.Clean` and `path.Split` -/

/-- Go `path.lazybuf`: the output of `Clean`, sharing the input until they differ. -/
structure lazybuf where
  s : List Char
  buf : Option (List Char)
  w : Nat

/-- Go `(*lazybuf).index`. -/
def lazybuf.index (b : lazybuf) (i : Nat) : Char :=
  match b.buf with
  | some buf => buf.getD i (Char.ofNat 0)
  | none => b.s.getD i (Char.ofNat 0)

/-- Go `(*lazybuf).append`. -/
def lazybuf.append (b : lazybuf) (c : Char) : lazybuf :=
  match b.buf with
  | none =>
    if b.w < b.s.length ∧ b.s.getD b.w (Char.ofNat 0) = c then { b with w := b.w + 1 }
    else
      let buf := b.s.take b.w ++ List.replicate (b.s.length - b.w) (Char.ofNat 0)
      { b with buf := some (buf.set b.w c), w := b.w + 1 }
  | some buf => { b with buf := some (buf.set b.w c), w := b.w + 1 }

/-- Go `(*lazybuf).string`. -/
def lazybuf.string (b : lazybuf) : List Char :=
  match b.buf with
  | none => b.s.take b.w
  | some buf => buf.take b.w

/-- The loop `for out.w > dotdot && out.index(out.w) != '/' { out.w-- }` of `Clean`. -/
def Clean.backtrack (dotdot : Nat) : Nat → lazybuf → lazybuf
  | 0, out => out
  | fuel + 1, out =>
    if out.w > dotdot ∧ out.index out.w ≠ '/' then
      Clean.backtrack dotdot fuel { out with w := out.w - 1 }
    else out

/-- The loop `for ; r < n && path[r] != '/'; r++ { out.append(path[r]) }` of `Clean`. -/
def Clean.copyElem (path : List Char) (n : Nat) : Nat → Nat → lazybuf → Nat × lazybuf
  | 0, r, out => (r, out)
  | fuel + 1, r, out =>
    if r < n ∧ path.getD r (Char.ofNat 0) ≠ '/' then
      Clean.copyElem path n fuel (r + 1) (out.append (path.getD r (Char.ofNat 0)))
    else (r, out)

/-- The main loop `for r < n { switch ... }` of `Clean`; every turn advances `r`. -/
def Clean.loop (path : List Char) (n : Nat) (rooted : Bool) :
    Nat → Nat → Nat → lazybuf → lazybuf
  | 0, _, _, out => out
  | fuel + 1, r, dotdot, out =>
    let at_ (i : Nat) : Char := path.getD i (Char.ofNat 0)
    if r < n then
      if at_ r = '/' then
        Clean.loop path n rooted fuel (r + 1) dotdot out
      else if at_ r = '.' ∧ (r + 1 = n ∨ at_ (r + 1) = '/') then
        Clean.loop path n rooted fuel (r + 1) dotdot out
      else if at_ r = '.' ∧ at_ (r + 1) = '.' ∧ (r + 2 = n ∨ at_ (r + 2) = '/') then
        if out.w > dotdot then
          let out1 := Clean.backtrack dotdot out.w { out with w := out.w - 1 }
          Clean.loop path n rooted fuel (r + 2) dotdot out1
        else if !rooted then
          let out1 := if out.w > 0 then out.append '/' else out
          let out2 := (out1.append '.').append '.'
          Clean.loop path n rooted fuel (r + 2) out2.w out2
        else
          Clean.loop path n rooted fuel (r + 2) dotdot out
      else
        let out1 :=
          if (rooted && out.w != 1) || (!rooted && out.w != 0) then out.append '/' else out
        let (r1, out2) := Clean.copyElem path n n r out1
        Clean.loop path n rooted fuel r1 dotdot out2
    else out

/-- Go `path.Clean`. Its loops get as many turns as the path has bytes, which is all
they can take (`Clean.loop_fuel_enough`). -/
def Clean (path : String) : String :=
  if path = "" then "."
  else
    let p := path.data
    let rooted : Bool := p.getD 0 (Char.ofNat 0) = '/'
    let n := p.length
    let out0 : lazybuf := { s := p, buf := none, w := 0 }
    let out := if rooted then Clean.loop p n rooted n 1 1 (out0.append '/')
               else Clean.loop p n rooted n 0 0 out0
    if out.w = 0 then "." else String.mk out.string

/-- The first result of Go `path.Split`: everything up to and including the last slash. -/
def SplitDir (path : String) : String :=
  String.mk (path.data.reverse.dropWhile (fun c => c ≠ '/')).reverse

/-! ## `http.Redirect` -/

/-- What `http.Redirect` reads of the result of `url.Parse`. -/
structure ParsedURL where
  Scheme : String
  Host : String

/-- Go `url.Parse` as far as `http.Redirect` looks at it: `none` is a parse error. -/
abbrev URLParser := String → Option ParsedURL

/-- The UTF-8 bytes of the character with code point `n`. -/
def utf8Bytes (n : Nat) : List Nat :=
  if n < 0x80 then [n]
  else if n < 0x800 then [0xC0 + n / 64, 0x80 + n % 64]
  else if n < 0x10000 then [0xE0 + n / 4096, 0x80 + n / 64 % 64, 0x80 + n % 64]
  else [0xF0 + n / 262144, 0x80 + n / 4096 % 64, 0x80 + n / 64 % 64, 0x80 + n % 64]

/-- One lower-case hexadecimal digit. -/
def hexDigit (d : Nat) : Char :=
  if d < 10 then Char.ofNat (48 + d) else Char.ofNat (87 + d)

/-- The escape `%xx` of one byte, as `strconv.AppendInt(b, int64(s[i]), 16)` after `%`
writes it for a byte of at least `0x80`. -/
def hexEscapeByte (b : Nat) : List Char :=
  ['%', hexDigit (b / 16), hexDigit (b % 16)]

/-- What `hexEscapeNonASCII` makes of one character. -/
def hexEscapeChar (c : Char) : List Char :=
  if c.toNat < 0x80 then [c] else (utf8Bytes c.toNat).flatMap hexEscapeByte

/-- Go `http.hexEscapeNonASCII`: every byte of at least `utf8.RuneSelf` becomes `%xx`. -/
def hexEscapeNonASCII (s : String) : String :=
  String.mk (s.data.flatMap hexEscapeChar)

/-- One upper-case hexadecimal digit, as `upperhex` of `net/url` has them. -/
def upperHexDigit (d : Nat) : Char :=
  if d < 10 then Char.ofNat (48 + d) else Char.ofNat (55 + d)

/-- Go `url.shouldEscape(c, encodePath)` on an ASCII character: letters, digits, the
marks `-_.~` and the reserved `$&+,/:;=@` stay, everything else is escaped. -/
def shouldEscapePath (c : Char) : Bool :=
  if ('a' ≤ c ∧ c ≤ 'z') ∨ ('A' ≤ c ∧ c ≤ 'Z') ∨ ('0' ≤ c ∧ c ≤ '9') then false
  else if c = '-' ∨ c = '_' ∨ c = '.' ∨ c = '~' then false
  else if c = '$' ∨ c = '&' ∨ c = '+' ∨ c = ',' ∨ c = '/' ∨ c = ':' ∨ c = ';' ∨ c = '='
      ∨ c = '?' ∨ c = '@' then c = '?'
  else true

/-- What `url.escape(s, encodePath)` makes of one character: `%XX` for each of its bytes
when it is to be escaped, as every byte above ASCII is. -/
def escapePathChar (c : Char) : List Char :=
  if c.toNat < 0x80 ∧ shouldEscapePath c = false then [c]
  else (utf8Bytes c.toNat).flatMap
    (fun b => ['%', upperHexDigit (b / 16), upperHexDigit (b % 16)])

/-- Go `url.escape(s, encodePath)`. -/
def escapePath (s : String) : String :=
  String.mk (s.data.flatMap escapePathChar)

/-- Go `url.validEncoded(s, encodePath)`. -/
def validEncodedPath (s : String) : Bool :=
  s.data.all (fun c =>
    if c = '!' ∨ c = '$' ∨ c = '&' ∨ c = Char.ofNat 39 ∨ c = '(' ∨ c = ')' ∨ c = '*' ∨ c = '+'
        ∨ c = ',' ∨ c = ';' ∨ c = '=' ∨ c = ':' ∨ c = '@' then true
    else if c = '[' ∨ c = ']' then true
    else if c = '%' then true
    else c.toNat < 0x80 && !shouldEscapePath c)

/-- Go `url.ishex`. -/
def ishex (c : Char) : Bool :=
  ('0' ≤ c ∧ c ≤ '9') ∨ ('a' ≤ c ∧ c ≤ 'f') ∨ ('A' ≤ c ∧ c ≤ 'F')

/-- Go `url.unhex`. -/
def unhex (c : Char) : Nat :=
  if '0' ≤ c ∧ c ≤ '9' then c.toNat - 48
  else if 'a' ≤ c ∧ c ≤ 'f' then c.toNat - 97 + 10
  else if 'A' ≤ c ∧ c ≤ 'F' then c.toNat - 65 + 10
  else 0

/-- Go `url.unescape(s, encodePath)`: the bytes of `s` with every `%XX` decoded, or
`none` when a `%` is not followed by two hexadecimal digits. -/
def unescapePath : List Char → Option (List Nat)
  | [] => some []
  | c :: rest =>
    if c = '%' then
      match rest with
      | a :: b :: rest2 =>
        if ishex a ∧ ishex b then (unescapePath rest2).map (fun t => (unhex a * 16 + unhex b) :: t)
        else none
      | _ => none
    else (unescapePath rest).map (fun t => utf8Bytes c.toNat ++ t)

/-- The bytes of a Go string. -/
def stringBytes (s : String) : List Nat :=
  s.data.flatMap (fun c => utf8Bytes c.toNat)

/-- Go `r.URL.EscapedPath()`: `RawPath` when it is a valid encoding of `Path`, and
`Path` in the default encoding otherwise. -/
def Request.EscapedPath (r : Request) : String :=
  if r.RawPath ≠ "" ∧ validEncodedPath r.RawPath = true
      ∧ unescapePath r.RawPath.data = some (stringBytes r.Path) then r.RawPath
  else if r.Path = "*" then "*"
  else escapePath r.Path

/-- What `htmlEscape` makes of one character. -/
def htmlEscapeChar (c : Char) : List Char :=
  if c = '&' then "&amp;".data
  else if c = '<' then "&lt;".data
  else if c = '>' then "&gt;".data
  else if c = Char.ofNat 34 then "&#34;".data
  else if c = Char.ofNat 39 then "&#39;".data
  else [c]

/-- Go `http.htmlEscape`. -/
def htmlEscape (s : String) : String :=
  String.mk (s.data.flatMap htmlEscapeChar)

/-- Go `strings.HasSuffix(s, "/")`. -/
def hasSlashSuffix (s : String) : Bool := s.data.getLast? = some '/'

/-- The branch `u.Scheme == "" && u.Host == ""` of `http.Redirect`: the target is made
absolute against `oldpath0`, the escaped path of the request, and cleaned, its query
and a trailing slash kept. -/
def Redirect.resolve (oldpath0 url : String) : String :=
  let oldpath := if oldpath0 = "" then "/" else oldpath0
  let url1 :=
    if url = "" ∨ url.data.head? ≠ some '/' then SplitDir oldpath ++ url else url
  let path1 := String.mk (url1.data.takeWhile (fun c => c ≠ '?'))
  let query := String.mk (url1.data.dropWhile (fun c => c ≠ '?'))
  let trailing := hasSlashSuffix path1
  let url2 := Clean path1
  let url3 := if trailing && !hasSlashSuffix url2 then url2 ++ "/" else url2
  url3 ++ query

/-- The first block of `http.Redirect`: only a target that parses, with neither scheme
nor host, is rewritten. -/
def Redirect.target (parse : URLParser) (oldpath url : String) : String :=
  match parse url with
  | none => url
  | some u => if u.Scheme = "" ∧ u.Host = "" then Redirect.resolve oldpath url else url

/-- The short HTML note `http.Redirect` writes with `fmt.Fprintln`. -/
def Redirect.note (url : String) (code : Nat) : String :=
  "<a href=\"" ++ htmlEscape url ++ "\">" ++ StatusText code ++ "</a>.\n" ++ "\n"

/-- Go `http.Redirect(w, r, url, code)`: the target is settled against
`r.URL.EscapedPath()`, `Location` set, a
`Content-Type` added for `GET` and `HEAD` when there was none, the header sent, and for
a `GET` without earlier `Content-Type` the note written. -/
def Redirect (parse : URLParser) (w : ResponseWriter) (r : Request) (url : String)
    (code : Nat) : ResponseWriter :=
  let url1 := Redirect.target parse r.EscapedPath url
  let hadCT := (Header.get w.header "Content-Type").isSome
  let w1 := { w with header := Header.Set w.header "Location" (hexEscapeNonASCII url1) }
  let w2 :=
    if !hadCT && (r.Method = "GET" || r.Method = "HEAD") then
      { w1 with header := Header.Set w1.header "Content-Type" "text/html; charset=utf-8" }
    else w1
  let w3 := w2.WriteHeader code
  if !hadCT && r.Method = "GET" then w3.Write (Redirect.note url1 code) else w3

/-! ## The handler file -/

/-- Go `type URLMapping struct`, with the YAML keys `path` and `url`. -/
structure URLMapping where
  Path : String
  URL : String
deriving DecidableEq

/-- A handler that holds a reference to the map of the caller: Go maps are shared by
reference, so its `ServeHTTP` can read and write the map besides the world. -/
abbrev SharingHandler := GoMap × World → Request → GoMap × World

/-- A handler without a reference to the map, among those that share it: the map is
left as it is. -/
def Handler.sharing (h : Handler) : SharingHandler := fun st r => (st.1, h st.2 r)

/-- One request served by the closure `MapHandler` returns, on the map the closure
refers to and the world; the fallback may hold the same map. -/
def MapHandler.serve (parse : URLParser) (fallback : SharingHandler)
    (st : GoMap × World) (r : Request) : GoMap × World :=
  match GoMap.get st.1 r.Path with
  | none =>
    let world1 := st.2.Printf ("No mapping found for " ++ r.Path ++ "\n")
    fallback (st.1, world1) r
  | some redirectURL =>
    let world1 := st.2.Printf ("Redirecting to " ++ redirectURL ++ "\n")
    (st.1, { world1 with w := Redirect parse world1.w r redirectURL StatusSeeOther })

/-- Go `MapHandler(pathsToUrls, fallback)`, for a fallback without a reference to the
map: the handler as a function of the world alone. -/
def MapHandler (parse : URLParser) (pathsToUrls : GoMap) (fallback : Handler) : Handler :=
  fun world r => (MapHandler.serve parse (Handler.sharing fallback) (pathsToUrls, world) r).2

/-- A run of requests served one after the other by the same closure, each on a
response writer of its own, the map and the logger going from one to the next. For
every request the run records the table it was served against and the table and world
it left. -/
def MapHandler.serveAll (parse : URLParser) (fallback : SharingHandler) :
    List Request → GoMap × List String → List (GoMap × (GoMap × World))
  | [], _ => []
  | r :: rest, (table, log) =>
    let after := MapHandler.serve parse fallback (table, { w := ResponseWriter.fresh, log := log }) r
    (table, after) :: MapHandler.serveAll parse fallback rest (after.1, after.2.log)

/-! ### The documents `yaml.Unmarshal` decodes -/

/-- A node of a parsed YAML document, without explicit tag, anchor, alias or merge key.
`null` is a scalar resolving to null (`~`, `null`, or nothing); `scalar` is any other
scalar, with its text. -/
inductive YamlNode where
  | null
  | scalar (value : String)
  | sequence (children : List YamlNode)
  | mapping (children : List (YamlNode × YamlNode))

/-- What the YAML parser makes of the payload: a failure, no document, or a root node. -/
inductive YamlDocument where
  | invalid (msg : String)
  | empty
  | root (n : YamlNode)

/-- The error `yaml.Unmarshal` returns: the text is not YAML, or (`*yaml.TypeError`) nodes
that do not fit the Go type they met, each given by the node and the name of that type.
The wording and line number of the messages are left out. -/
inductive YamlError where
  | invalid (msg : String)
  | type (errors : List (YamlNode × String))

/-- Go `yaml.Unmarshal(yml, &parsed)`: the value left in `parsed` and the error. -/
abbrev Unmarshaler (Payload : Type) := Payload → List URLMapping × Option YamlError

/-- The loop `for _, v := range parsed` of `parseYAML`. -/
def parseYAML.fill : List URLMapping → GoMap × List String → GoMap × List String
  | [], st => st
  | v :: rest, st =>
    parseYAML.fill rest (GoMap.set st.1 v.Path v.URL, st.2 ++ [v.Path ++ ": " ++ v.URL ++ "\n"])

/-- Go `parseYAML(yml)`: the pair `(map, error)` and the logger after it. -/
def parseYAML {Payload : Type} (Unmarshal : Unmarshaler Payload) (yml : Payload)
    (log : List String) : (Option GoMap × Option YamlError) × List String :=
  let ret : GoMap := []
  match (Unmarshal yml).2 with
  | some err => ((none, some err), log)
  | none =>
    let st := parseYAML.fill (Unmarshal yml).1 (ret, log)
    ((some st.1, none), st.2)

/-- Go `YAMLHandler(yml, fallback)`: the pair `(handler, error)` and the logger after it.
A nil map reads as the empty one. -/
def YAMLHandler {Payload : Type} (Unmarshal : Unmarshaler Payload) (parse : URLParser)
    (yml : Payload) (fallback : Handler) (log : List String) :
    (Option Handler × Option YamlError) × List String :=
  match parseYAML Unmarshal yml log with
  | ((_, some err), log1) => ((none, some err), log1)
  | ((parsedMap, none), log1) =>
    ((some (MapHandler parse (parsedMap.getD []) fallback), none), log1)

/-! ## `yaml.Unmarshal` of `gopkg.in/yaml.v2` into `[]URLMapping`

The decoder is followed on the node tree the YAML parser hands it. -/

/-- The decoder on a node met where a Go `string` is expected: the string to store, or
the type error. A null stores the zero value. -/
def yamlString (n : YamlNode) : Except (YamlNode × String) String :=
  match n with
  | .null => .ok ""
  | .scalar value => .ok value
  | other => .error (other, "string")

/-- The loop of `mappingStruct` over the key and value pairs of a mapping met where a
`URLMapping` is expected: keys other than `path` and `url` are skipped, a later pair
overwrites an earlier one, and a value that is no scalar leaves the field as it was. -/
def yamlStruct : List (YamlNode × YamlNode) → URLMapping × List (YamlNode × String) →
    URLMapping × List (YamlNode × String)
  | [], st => st
  | (k, v) :: rest, (out, errs) =>
    match yamlString k with
    | .error e => yamlStruct rest (out, errs ++ [e])
    | .ok name =>
      if name = "path" then
        match yamlString v with
        | .ok s => yamlStruct rest ({ out with Path := s }, errs)
        | .error e => yamlStruct rest (out, errs ++ [e])
      else if name = "url" then
        match yamlString v with
        | .ok s => yamlStruct rest ({ out with URL := s }, errs)
        | .error e => yamlStruct rest (out, errs ++ [e])
      else yamlStruct rest (out, errs)

/-- The decoder on a node met where a `URLMapping` is expected: the record, if the node
is good, and the type errors. -/
def yamlElement (n : YamlNode) : Option URLMapping × List (YamlNode × String) :=
  match n with
  | .null => (some { Path := "", URL := "" }, [])
  | .mapping children =>
    let st := yamlStruct children ({ Path := "", URL := "" }, [])
    (some st.1, st.2)
  | other => (none, [(other, "urlshort.URLMapping")])

/-- The loop of the decoder over the children of a sequence met where a `[]URLMapping`
is expected: good elements are kept in order, the others leave a type error. -/
def yamlSequence : List YamlNode → List URLMapping × List (YamlNode × String) →
    List URLMapping × List (YamlNode × String)
  | [], st => st
  | n :: rest, (out, errs) =>
    match yamlElement n with
    | (some e, errs1) => yamlSequence rest (out ++ [e], errs ++ errs1)
    | (none, errs1) => yamlSequence rest (out, errs ++ errs1)

/-- Go `yaml.Unmarshal(yml, &parsed)` for `parsed []URLMapping`, on the parsed document. -/
def yamlUnmarshal : Unmarshaler YamlDocument
  | .invalid msg => ([], some (.invalid msg))
  | .empty => ([], none)
  | .root .null => ([], none)
  | .root (.sequence children) =>
    let st := yamlSequence children ([], [])
    (st.1, if st.2.isEmpty then none else some (.type st.2))
  | .root other => ([], some (.type [(other, "[]urlshort.URLMapping")]))

/-! ### The expected record shape, in the words of the specification

A payload conforms when it is a list of records, each with the string fields `path`
and `url`. -/

/-- The node can stand for a string: it is a scalar, null included. -/
def YamlNode.isText : YamlNode → Bool
  | .null => true
  | .scalar _ => true
  | _ => false

/-- One pair of a mapping fits a record: its key is a scalar, and under the keys `path`
and `url` its value is a scalar too. -/
def YamlNode.pairFits (kv : YamlNode × YamlNode) : Bool :=
  match kv.1 with
  | .null => true
  | .scalar name => if name = "path" ∨ name = "url" then kv.2.isText else true
  | _ => false

/-- The node has the shape of a record: a mapping whose pairs fit, or null. -/
def YamlNode.isRecord : YamlNode → Bool
  | .null => true
  | .mapping children => children.all YamlNode.pairFits
  | _ => false

/-- The payload is malformed, that is, of the wrong structural shape: it is not YAML at
all, or its root is neither a list nor null, or an element of the list does not have
the shape of a record. A record that lacks `path` or `url` is not thereby malformed. -/
def YamlDocument.malformed : YamlDocument → Bool
  | .invalid _ => true
  | .empty => false
  | .root .null => false
  | .root (.sequence children) => children.any (fun n => !n.isRecord)
  | .root _ => true

/-- The record a list element of the shape of a record stands for. -/
def yamlRecord (n : YamlNode) : URLMapping :=
  match n with
  | .mapping children => (yamlStruct children ({ Path := "", URL := "" }, [])).1
  | _ => { Path := "", URL := "" }

/-! ## Sample values -/

/-- The target of the example in the documentation of the exercise. -/
def sampleURL : String := "https://github.com/gophercises/urlshort"

/-- The payload `- path: /urlshort` / `  url: https://github.com/gophercises/urlshort`. -/
def sampleDocument : YamlDocument :=
  .root (.sequence [.mapping [(.scalar "path", .scalar "/urlshort"), (.scalar "url", .scalar sampleURL)]])

/-- The payload `- path: /a`, a record without `url`. -/
def noURLDocument : YamlDocument :=
  .root (.sequence [.mapping [(.scalar "path", .scalar "/a")]])

/-- The payload `- url: /b`, a record without `path`. -/
def noPathDocument : YamlDocument :=
  .root (.sequence [.mapping [(.scalar "url", .scalar "/b")]])

/-- The payload `- path: {a: b}` / `  url: u`, a record whose `path` is a mapping. -/
def nestedPathDocument : YamlDocument :=
  .root (.sequence [.mapping [(.scalar "path", .mapping [(.scalar "a", .scalar "b")]),
    (.scalar "url", .scalar "u")]])

/-- The payload `path: /a` / `url: /b`, a mapping where the list is expected. -/
def mappingDocument : YamlDocument :=
  .root (.mapping [(.scalar "path", .scalar "/a"), (.scalar "url", .scalar "/b")])

/-- The payload of two records, `/a` to `u1` and `/b` to `u2`. -/
def distinctDocument : YamlDocument :=
  .root (.sequence [
    .mapping [(.scalar "path", .scalar "/a"), (.scalar "url", .scalar "u1")],
    .mapping [(.scalar "path", .scalar "/b"), (.scalar "url", .scalar "u2")]])

/-- The payload of three records in which `/a` comes first and last. -/
def duplicateDocument : YamlDocument :=
  .root (.sequence [
    .mapping [(.scalar "path", .scalar "/a"), (.scalar "url", .scalar "first")],
    .mapping [(.scalar "path", .scalar "/b"), (.scalar "url", .scalar "other")],
    .mapping [(.scalar "path", .scalar "/a"), (.scalar "url", .scalar "second")]])

/-- What `url.Parse` finds in the targets used below: a scheme and host in `sampleURL`
and in `https://example.com/café`, neither in `docs/intro`. Other strings are not
looked at, and stand as rejected. -/
def sampleParse : URLParser := fun url =>
  if url = sampleURL then some { Scheme := "https", Host := "github.com" }
  else if url = "https://example.com/café" then some { Scheme := "https", Host := "example.com" }
  else if url = "docs/intro" then some { Scheme := "", Host := "" }
  else none

/-- A fallback that holds the map of the handler and records in it every path it is
asked for. -/
def recordingFallback : SharingHandler := fun st r =>
  (GoMap.set st.1 r.Path "/seen", { st.2 with w := st.2.w.Write "Hello, world!\n" })

/-- A fallback that greets, as the mux of the exercise does. -/
def helloFallback : Handler := fun world _ =>
  { world with w := world.w.Write "Hello, world!\n" }

/-- A world in which nothing was sent or logged yet. -/
def freshWorld : World := { w := ResponseWriter.fresh, log := [] }

/-- A request with the given method and path, and nothing else: the path came in its
default encoding, so `RawPath` is empty. -/
def sampleRequest (method path : String) : Request :=
  { Method := method, Path := path, RawPath := "", RawQuery := "", Host := "", Header := [] }

/-! ## Go maps: reading after writing -/

theorem GoMap.get_set_self (m : GoMap) (k v : String) : GoMap.get (GoMap.set m k v) k = some v := by
  induction m with
  | nil => simp [GoMap.set, GoMap.get]
  | cons kv rest ih =>
    obtain ⟨k1, v1⟩ := kv
    by_cases h : k1 = k
    · simp [GoMap.set, GoMap.get, h]
    · simp [GoMap.set, GoMap.get, h, ih]

theorem GoMap.get_set_other (m : GoMap) (k v p : String) (hne : k ≠ p) :
    GoMap.get (GoMap.set m k v) p = GoMap.get m p := by
  induction m with
  | nil => simp [GoMap.set, GoMap.get, hne]
  | cons kv rest ih =>
    obtain ⟨k1, v1⟩ := kv
    by_cases h : k1 = k
    · subst h
      simp [GoMap.set, GoMap.get, hne]
    · by_cases hp : k1 = p
      · subst hp
        simp [GoMap.set, GoMap.get, h]
      · simp [GoMap.set, GoMap.get, h, hp, ih]

theorem GoMap.mem_keys_set (m : GoMap) (k v p : String) :
    p ∈ GoMap.keys (GoMap.set m k v) ↔ p ∈ GoMap.keys m ∨ p = k := by
  induction m with
  | nil => simp [GoMap.set, GoMap.keys]
  | cons kv rest ih =>
    obtain ⟨k1, v1⟩ := kv
    by_cases h : k1 = k
    · subst h
      simp only [GoMap.set, GoMap.keys, if_true, List.map_cons, List.mem_cons]
      tauto
    · simp only [GoMap.keys] at ih
      simp [GoMap.set, GoMap.keys, h, ih, or_assoc]

theorem GoMap.nodup_keys_set (m : GoMap) (k v : String) (hm : (GoMap.keys m).Nodup) :
    (GoMap.keys (GoMap.set m k v)).Nodup := by
  induction m with
  | nil => simp [GoMap.set, GoMap.keys]
  | cons kv rest ih =>
    obtain ⟨k1, v1⟩ := kv
    have hm2 : k1 ∉ GoMap.keys rest ∧ (GoMap.keys rest).Nodup := by
      simpa [GoMap.keys] using hm
    by_cases h : k1 = k
    · subst h
      simpa [GoMap.set, GoMap.keys] using hm
    · have hnot : k1 ∉ GoMap.keys (GoMap.set rest k v) := by
        rw [GoMap.mem_keys_set]
        rintro (hin | heq)
        · exact hm2.1 hin
        · exact h heq
      have hrest := ih hm2.2
      simp only [GoMap.set, h, if_false]
      simp only [GoMap.keys, List.map_cons, List.nodup_cons]
      exact ⟨hnot, hrest⟩

/-! ## The loop of `parseYAML` -/

theorem parseYAML.fill_append (pre post : List URLMapping) (st : GoMap × List String) :
    parseYAML.fill (pre ++ post) st = parseYAML.fill post (parseYAML.fill pre st) := by
  induction pre generalizing st with
  | nil => rfl
  | cons v rest ih => simp [parseYAML.fill, ih]

theorem parseYAML.fill_get_absent (ps : List URLMapping) (st : GoMap × List String) (p : String)
    (habs : ∀ x ∈ ps, x.Path ≠ p) :
    GoMap.get (parseYAML.fill ps st).1 p = GoMap.get st.1 p := by
  induction ps generalizing st with
  | nil => rfl
  | cons v rest ih =>
    have hv : v.Path ≠ p := habs v (List.mem_cons_self _ _)
    have hrest : ∀ x ∈ rest, x.Path ≠ p := fun x hx => habs x (List.mem_cons_of_mem _ hx)
    simp only [parseYAML.fill]
    rw [ih _ hrest]
    exact GoMap.get_set_other st.1 v.Path v.URL p hv

theorem parseYAML.fill_get_last (pre post : List URLMapping) (v : URLMapping)
    (st : GoMap × List String) (habs : ∀ x ∈ post, x.Path ≠ v.Path) :
    GoMap.get (parseYAML.fill (pre ++ v :: post) st).1 v.Path = some v.URL := by
  rw [parseYAML.fill_append]
  simp only [parseYAML.fill]
  rw [parseYAML.fill_get_absent post _ v.Path habs]
  exact GoMap.get_set_self _ _ _

theorem parseYAML.fill_mem_keys (ps : List URLMapping) (st : GoMap × List String) (p : String) :
    p ∈ GoMap.keys (parseYAML.fill ps st).1 ↔
      p ∈ GoMap.keys st.1 ∨ p ∈ ps.map URLMapping.Path := by
  induction ps generalizing st with
  | nil => simp [parseYAML.fill]
  | cons v rest ih =>
    simp only [parseYAML.fill]
    rw [ih, GoMap.mem_keys_set]
    simp only [List.map_cons, List.mem_cons]
    tauto

theorem parseYAML.fill_nodup_keys (ps : List URLMapping) (st : GoMap × List String)
    (hst : (GoMap.keys st.1).Nodup) : (GoMap.keys (parseYAML.fill ps st).1).Nodup := by
  induction ps generalizing st with
  | nil => simpa [parseYAML.fill] using hst
  | cons v rest ih =>
    simp only [parseYAML.fill]
    exact ih _ (GoMap.nodup_keys_set st.1 v.Path v.URL hst)

theorem parseYAML.fill_len (ps : List URLMapping) (log : List String) :
    GoMap.len (parseYAML.fill ps ([], log)).1 = (ps.map URLMapping.Path).toFinset.card := by
  have hnodup := parseYAML.fill_nodup_keys ps ([], log) (by simp [GoMap.keys])
  have hlen : GoMap.len (parseYAML.fill ps ([], log)).1
      = (GoMap.keys (parseYAML.fill ps ([], log)).1).length := by
    simp [GoMap.len, GoMap.keys]
  rw [hlen, ← List.toFinset_card_of_nodup hnodup]
  congr 1
  ext p
  simp only [List.mem_toFinset]
  rw [parseYAML.fill_mem_keys]
  simp [GoMap.keys]

theorem parseYAML_of_unmarshal_ok {Payload : Type} (Unmarshal : Unmarshaler Payload)
    (yml : Payload) (log : List String) (parsed : List URLMapping)
    (hok : Unmarshal yml = (parsed, none)) :
    parseYAML Unmarshal yml log
      = ((some (parseYAML.fill parsed ([], log)).1, none), (parseYAML.fill parsed ([], log)).2) := by
  simp [parseYAML, hok]

theorem parseYAML_of_unmarshal_error {Payload : Type} (Unmarshal : Unmarshaler Payload)
    (yml : Payload) (log : List String) (err : YamlError) (herr : (Unmarshal yml).2 = some err) :
    parseYAML Unmarshal yml log = ((none, some err), log) := by
  simp [parseYAML, herr]

/-! ## `http.Redirect`: what it sends -/

theorem Header.get_Set_self (h : Header) (key value : String) :
    Header.get (Header.Set h key value) key = some [value] := by
  induction h with
  | nil => simp [Header.Set, Header.get]
  | cons kv rest ih =>
    obtain ⟨k1, v1⟩ := kv
    by_cases hk : k1 = key
    · simp [Header.Set, Header.get, hk]
    · simp [Header.Set, Header.get, hk, ih]

theorem Header.get_Set_other (h : Header) (key value other : String) (hne : key ≠ other) :
    Header.get (Header.Set h key value) other = Header.get h other := by
  induction h with
  | nil => simp [Header.Set, Header.get, hne]
  | cons kv rest ih =>
    obtain ⟨k1, v1⟩ := kv
    by_cases hk : k1 = key
    · subst hk
      simp [Header.Set, Header.get, hne]
    · by_cases ho : k1 = other
      · subst ho
        simp [Header.Set, Header.get, hk]
      · simp [Header.Set, Header.get, hk, ho, ih]

theorem hexEscapeChars_ascii (cs : List Char) (hascii : ∀ c ∈ cs, c.toNat < 0x80) :
    cs.flatMap hexEscapeChar = cs := by
  induction cs with
  | nil => rfl
  | cons c rest ih =>
    have hc : c.toNat < 0x80 := hascii c (List.mem_cons_self _ _)
    have hrest := ih (fun x hx => hascii x (List.mem_cons_of_mem _ hx))
    simp [List.flatMap_cons, hexEscapeChar, hc, hrest]

theorem hexEscapeNonASCII_ascii (s : String) (hascii : ∀ c ∈ s.data, c.toNat < 0x80) :
    hexEscapeNonASCII s = s := by
  unfold hexEscapeNonASCII
  rw [hexEscapeChars_ascii s.data hascii]

theorem Redirect.target_cases (parse : URLParser) (oldpath url : String) :
    Redirect.target parse oldpath url = url
      ∨ Redirect.target parse oldpath url = Redirect.resolve oldpath url := by
  unfold Redirect.target
  cases parse url with
  | none => exact Or.inl rfl
  | some u =>
    by_cases hrel : u.Scheme = "" ∧ u.Host = ""
    · right; simp [hrel]
    · left; simp [hrel]

theorem Redirect.target_of_not_relative (parse : URLParser) (oldpath url : String)
    (hparse : ∀ u, parse url = some u → ¬ (u.Scheme = "" ∧ u.Host = "")) :
    Redirect.target parse oldpath url = url := by
  unfold Redirect.target
  cases hp : parse url with
  | none => rfl
  | some u => simp [hparse u hp]

theorem Redirect.sent_of_unsent (parse : URLParser) (w : ResponseWriter) (r : Request)
    (url : String) (code : Nat) (hunsent : w.sent = none) :
    ∃ hdr, (Redirect parse w r url code).sent = some (code, hdr)
      ∧ Header.get hdr "Location"
          = some [hexEscapeNonASCII (Redirect.target parse r.EscapedPath url)] := by
  have hne : ("Content-Type" : String) ≠ "Location" := by decide
  unfold Redirect
  by_cases hct : (Header.get w.header "Content-Type").isSome = true
  · simp [hct, ResponseWriter.WriteHeader, hunsent, Header.get_Set_self]
  · by_cases hget : r.Method = "GET"
    · simp [hct, hget, ResponseWriter.WriteHeader, ResponseWriter.Write, hunsent,
        Header.get_Set_self, Header.get_Set_other _ _ _ _ hne]
    · by_cases hhead : r.Method = "HEAD"
      · simp [hct, hhead, ResponseWriter.WriteHeader, hunsent,
          Header.get_Set_self, Header.get_Set_other _ _ _ _ hne]
      · simp [hct, hget, hhead, ResponseWriter.WriteHeader, hunsent, Header.get_Set_self]

theorem Redirect.body_of_note (parse : URLParser) (w : ResponseWriter) (r : Request)
    (url : String) (code : Nat) (hget : r.Method = "GET")
    (hct : (Header.get w.header "Content-Type").isSome = false) :
    (Redirect parse w r url code).body
      = w.body ++ Redirect.note (Redirect.target parse r.EscapedPath url) code := by
  unfold Redirect
  cases hs : w.sent <;> simp [hct, hget, ResponseWriter.WriteHeader, ResponseWriter.Write, hs]

theorem Redirect.body_of_no_note (parse : URLParser) (w : ResponseWriter) (r : Request)
    (url : String) (code : Nat)
    (hno : r.Method ≠ "GET" ∨ (Header.get w.header "Content-Type").isSome = true) :
    (Redirect parse w r url code).body = w.body := by
  unfold Redirect
  cases hs : w.sent <;> rcases hno with hm | hct <;>
    by_cases hhead : r.Method = "HEAD" <;>
    by_cases hct2 : (Header.get w.header "Content-Type").isSome = true <;>
    simp_all [ResponseWriter.WriteHeader, ResponseWriter.Write]

theorem Redirect.header_eq (parse : URLParser) (w : ResponseWriter) (r : Request)
    (url : String) (code : Nat) :
    (Redirect parse w r url code).header
      = if (Header.get w.header "Content-Type").isSome = false
            ∧ (r.Method = "GET" ∨ r.Method = "HEAD") then
          Header.Set
            (Header.Set w.header "Location"
              (hexEscapeNonASCII (Redirect.target parse r.EscapedPath url)))
            "Content-Type" "text/html; charset=utf-8"
        else
          Header.Set w.header "Location"
            (hexEscapeNonASCII (Redirect.target parse r.EscapedPath url)) := by
  unfold Redirect
  cases hs : w.sent <;>
    by_cases hct : (Header.get w.header "Content-Type").isSome = true <;>
    by_cases hget : r.Method = "GET" <;>
    by_cases hhead : r.Method = "HEAD" <;>
    simp_all [ResponseWriter.WriteHeader, ResponseWriter.Write]

theorem Redirect.sent_eq (parse : URLParser) (w : ResponseWriter) (r : Request)
    (url : String) (code : Nat) (hunsent : w.sent = none) :
    (Redirect parse w r url code).sent = some (code, (Redirect parse w r url code).header) := by
  unfold Redirect
  by_cases hct : (Header.get w.header "Content-Type").isSome = true <;>
    by_cases hget : r.Method = "GET" <;>
    by_cases hhead : r.Method = "HEAD" <;>
    simp_all [ResponseWriter.WriteHeader, ResponseWriter.Write]

theorem Redirect.note_seeOther (url : String) :
    Redirect.note url StatusSeeOther
      = "<a href=\"" ++ htmlEscape url ++ "\">See Other</a>.\n\n" := by
  have htext : StatusText StatusSeeOther = "See Other" := by decide
  have htail : "\">" ++ ("See Other" ++ ("</a>.\n" ++ "\n")) = "\">See Other</a>.\n\n" := by
    decide
  unfold Redirect.note
  rw [htext, String.append_assoc, String.append_assoc, String.append_assoc,
    String.append_assoc, htail]
  exact (String.append_assoc _ _ _).symm

theorem MapHandler.of_hit (parse : URLParser) (pathsToUrls : GoMap) (fallback : Handler)
    (world : World) (r : Request) (url : String)
    (hhit : GoMap.get pathsToUrls r.Path = some url) :
    MapHandler parse pathsToUrls fallback world r
      = { w := Redirect parse world.w r url StatusSeeOther,
          log := world.log ++ ["Redirecting to " ++ url ++ "\n"] } := by
  simp [MapHandler, MapHandler.serve, Handler.sharing, hhit, World.Printf]

theorem MapHandler.of_miss (parse : URLParser) (pathsToUrls : GoMap) (fallback : Handler)
    (world : World) (r : Request) (hmiss : GoMap.get pathsToUrls r.Path = none) :
    MapHandler parse pathsToUrls fallback world r
      = fallback { w := world.w, log := world.log ++ ["No mapping found for " ++ r.Path ++ "\n"] }
          r := by
  simp [MapHandler, MapHandler.serve, Handler.sharing, hmiss, World.Printf]

theorem GoMap.get_eq_none_iff (m : GoMap) (k : String) :
    GoMap.get m k = none ↔ k ∉ GoMap.keys m := by
  induction m with
  | nil => simp [GoMap.get, GoMap.keys]
  | cons kv rest ih =>
    obtain ⟨k1, v1⟩ := kv
    simp only [GoMap.keys] at ih
    by_cases h : k1 = k
    · simp [GoMap.get, GoMap.keys, h]
    · have h2 : ¬ k = k1 := fun e => h e.symm
      simp [GoMap.get, GoMap.keys, h, h2, ih]

theorem YAMLHandler_of_unmarshal_error {Payload : Type} (Unmarshal : Unmarshaler Payload)
    (parse : URLParser) (yml : Payload) (fallback : Handler) (log : List String)
    (err : YamlError) (herr : (Unmarshal yml).2 = some err) :
    YAMLHandler Unmarshal parse yml fallback log = ((none, some err), log) := by
  simp [YAMLHandler, parseYAML_of_unmarshal_error Unmarshal yml log err herr]

theorem YAMLHandler_of_unmarshal_ok {Payload : Type} (Unmarshal : Unmarshaler Payload)
    (parse : URLParser) (yml : Payload) (fallback : Handler) (log : List String)
    (hok : (Unmarshal yml).2 = none) :
    YAMLHandler Unmarshal parse yml fallback log
      = ((some (MapHandler parse (parseYAML.fill (Unmarshal yml).1 ([], log)).1 fallback), none),
          (parseYAML.fill (Unmarshal yml).1 ([], log)).2) := by
  simp [YAMLHandler, parseYAML, hok]

/-! ## The decoder and the expected record shape -/

theorem yamlStruct_errors_mono (kvs : List (YamlNode × YamlNode)) (out : URLMapping)
    (errs : List (YamlNode × String)) (hne : errs ≠ []) :
    (yamlStruct kvs (out, errs)).2 ≠ [] := by
  induction kvs generalizing out errs with
  | nil => simpa [yamlStruct] using hne
  | cons kv rest ih =>
    obtain ⟨k, v⟩ := kv
    have hgrow : ∀ e : YamlNode × String, errs ++ [e] ≠ [] := by
      intro e; simp
    cases k with
    | null => simp only [yamlStruct, yamlString]; exact ih _ _ hne
    | sequence cs => simp only [yamlStruct, yamlString]; exact ih _ _ (hgrow _)
    | mapping cs => simp only [yamlStruct, yamlString]; exact ih _ _ (hgrow _)
    | scalar name =>
      simp only [yamlStruct, yamlString]
      split_ifs
      · cases v <;> simp only [yamlString] <;> first | exact ih _ _ hne | exact ih _ _ (hgrow _)
      · cases v <;> simp only [yamlString] <;> first | exact ih _ _ hne | exact ih _ _ (hgrow _)
      · exact ih _ _ hne

theorem yamlStruct_errors_of_fits (kvs : List (YamlNode × YamlNode)) (out : URLMapping)
    (errs : List (YamlNode × String)) (hfit : kvs.all YamlNode.pairFits = true) :
    (yamlStruct kvs (out, errs)).2 = errs := by
  induction kvs generalizing out errs with
  | nil => rfl
  | cons kv rest ih =>
    obtain ⟨k, v⟩ := kv
    simp only [List.all_cons, Bool.and_eq_true] at hfit
    obtain ⟨hkv, hrest⟩ := hfit
    cases k with
    | null => simp only [yamlStruct, yamlString]; exact ih _ _ hrest
    | sequence cs => simp [YamlNode.pairFits] at hkv
    | mapping cs => simp [YamlNode.pairFits] at hkv
    | scalar name =>
      simp only [yamlStruct, yamlString]
      split_ifs with hp hu
      · cases v with
        | null => simp only [yamlString]; exact ih _ _ hrest
        | scalar t => simp only [yamlString]; exact ih _ _ hrest
        | sequence cs => simp [YamlNode.pairFits, hp, YamlNode.isText] at hkv
        | mapping cs => simp [YamlNode.pairFits, hp, YamlNode.isText] at hkv
      · cases v with
        | null => simp only [yamlString]; exact ih _ _ hrest
        | scalar t => simp only [yamlString]; exact ih _ _ hrest
        | sequence cs => simp [YamlNode.pairFits, hu, YamlNode.isText] at hkv
        | mapping cs => simp [YamlNode.pairFits, hu, YamlNode.isText] at hkv
      · exact ih _ _ hrest

theorem yamlStruct_errors_of_misfit (kvs : List (YamlNode × YamlNode)) (out : URLMapping)
    (errs : List (YamlNode × String)) (hmis : kvs.all YamlNode.pairFits = false) :
    (yamlStruct kvs (out, errs)).2 ≠ [] := by
  induction kvs generalizing out errs with
  | nil => simp at hmis
  | cons kv rest ih =>
    obtain ⟨k, v⟩ := kv
    have hgrow : ∀ e : YamlNode × String, errs ++ [e] ≠ [] := by
      intro e; simp
    by_cases hkv : YamlNode.pairFits (k, v) = true
    · have hrest : rest.all YamlNode.pairFits = false := by
        simpa [List.all_cons, hkv] using hmis
      cases k with
      | null => simp only [yamlStruct, yamlString]; exact ih _ _ hrest
      | sequence cs => simp only [yamlStruct, yamlString]; exact ih _ _ hrest
      | mapping cs => simp only [yamlStruct, yamlString]; exact ih _ _ hrest
      | scalar name =>
        simp only [yamlStruct, yamlString]
        split_ifs
        · cases v <;> simp only [yamlString] <;> exact ih _ _ hrest
        · cases v <;> simp only [yamlString] <;> exact ih _ _ hrest
        · exact ih _ _ hrest
    · cases k with
      | null => simp [YamlNode.pairFits] at hkv
      | sequence cs =>
        simp only [yamlStruct, yamlString]
        exact yamlStruct_errors_mono rest _ _ (hgrow _)
      | mapping cs =>
        simp only [yamlStruct, yamlString]
        exact yamlStruct_errors_mono rest _ _ (hgrow _)
      | scalar name =>
        simp only [yamlStruct, yamlString]
        split_ifs with hp hu
        · cases v with
          | null => simp [YamlNode.pairFits, hp, YamlNode.isText] at hkv
          | scalar t => simp [YamlNode.pairFits, hp, YamlNode.isText] at hkv
          | sequence cs =>
            simp only [yamlString]; exact yamlStruct_errors_mono rest _ _ (hgrow _)
          | mapping cs =>
            simp only [yamlString]; exact yamlStruct_errors_mono rest _ _ (hgrow _)
        · cases v with
          | null => simp [YamlNode.pairFits, hu, YamlNode.isText] at hkv
          | scalar t => simp [YamlNode.pairFits, hu, YamlNode.isText] at hkv
          | sequence cs =>
            simp only [yamlString]; exact yamlStruct_errors_mono rest _ _ (hgrow _)
          | mapping cs =>
            simp only [yamlString]; exact yamlStruct_errors_mono rest _ _ (hgrow _)
        · simp [YamlNode.pairFits, hp, hu] at hkv

theorem yamlStruct_URL_of_no_key (kvs : List (YamlNode × YamlNode)) (out : URLMapping)
    (errs : List (YamlNode × String)) (hno : ∀ kv ∈ kvs, kv.1 ≠ YamlNode.scalar "url") :
    (yamlStruct kvs (out, errs)).1.URL = out.URL := by
  induction kvs generalizing out errs with
  | nil => rfl
  | cons kv rest ih =>
    obtain ⟨k, v⟩ := kv
    have hk : k ≠ YamlNode.scalar "url" := hno (k, v) (List.mem_cons_self _ _)
    have hrest : ∀ kv ∈ rest, kv.1 ≠ YamlNode.scalar "url" :=
      fun kv hkv => hno kv (List.mem_cons_of_mem _ hkv)
    cases k with
    | null => simp only [yamlStruct, yamlString]; exact ih _ _ hrest
    | sequence cs => simp only [yamlStruct, yamlString]; exact ih _ _ hrest
    | mapping cs => simp only [yamlStruct, yamlString]; exact ih _ _ hrest
    | scalar name =>
      have hname : name ≠ "url" := fun h => hk (by rw [h])
      simp only [yamlStruct, yamlString]
      split_ifs with hp
      · cases v <;> simp only [yamlString] <;> rw [ih _ _ hrest]
      · exact ih _ _ hrest

theorem yamlStruct_Path_of_no_key (kvs : List (YamlNode × YamlNode)) (out : URLMapping)
    (errs : List (YamlNode × String)) (hno : ∀ kv ∈ kvs, kv.1 ≠ YamlNode.scalar "path") :
    (yamlStruct kvs (out, errs)).1.Path = out.Path := by
  induction kvs generalizing out errs with
  | nil => rfl
  | cons kv rest ih =>
    obtain ⟨k, v⟩ := kv
    have hk : k ≠ YamlNode.scalar "path" := hno (k, v) (List.mem_cons_self _ _)
    have hrest : ∀ kv ∈ rest, kv.1 ≠ YamlNode.scalar "path" :=
      fun kv hkv => hno kv (List.mem_cons_of_mem _ hkv)
    cases k with
    | null => simp only [yamlStruct, yamlString]; exact ih _ _ hrest
    | sequence cs => simp only [yamlStruct, yamlString]; exact ih _ _ hrest
    | mapping cs => simp only [yamlStruct, yamlString]; exact ih _ _ hrest
    | scalar name =>
      have hname : name ≠ "path" := fun h => hk (by rw [h])
      simp only [yamlStruct, yamlString, hname, if_false]
      split_ifs with hu
      · cases v <;> simp only [yamlString] <;> rw [ih _ _ hrest]
      · exact ih _ _ hrest

theorem yamlElement_of_isRecord (n : YamlNode) (hrec : n.isRecord = true) :
    yamlElement n = (some (yamlRecord n), []) := by
  cases n with
  | null => rfl
  | scalar t => simp [YamlNode.isRecord] at hrec
  | sequence cs => simp [YamlNode.isRecord] at hrec
  | mapping kvs =>
    have hfit : kvs.all YamlNode.pairFits = true := by simpa [YamlNode.isRecord] using hrec
    simp only [yamlElement, yamlRecord]
    rw [yamlStruct_errors_of_fits kvs _ _ hfit]

theorem yamlElement_errors_of_not_isRecord (n : YamlNode) (hrec : n.isRecord = false) :
    (yamlElement n).2 ≠ [] := by
  cases n with
  | null => simp [YamlNode.isRecord] at hrec
  | scalar t => simp [yamlElement]
  | sequence cs => simp [yamlElement]
  | mapping kvs =>
    have hmis : kvs.all YamlNode.pairFits = false := by simpa [YamlNode.isRecord] using hrec
    simp only [yamlElement]
    exact yamlStruct_errors_of_misfit kvs _ _ hmis

theorem yamlSequence_errors_mono (children : List YamlNode) (out : List URLMapping)
    (errs : List (YamlNode × String)) (hne : errs ≠ []) :
    (yamlSequence children (out, errs)).2 ≠ [] := by
  induction children generalizing out errs with
  | nil => simpa [yamlSequence] using hne
  | cons n rest ih =>
    have hgrow : ∀ more : List (YamlNode × String), errs ++ more ≠ [] := by
      intro more h
      exact hne (List.append_eq_nil.mp h).1
    simp only [yamlSequence]
    cases hel : yamlElement n with
    | mk rec errs1 =>
      cases rec with
      | none => exact ih _ _ (hgrow _)
      | some e => exact ih _ _ (hgrow _)

theorem yamlSequence_of_records (children : List YamlNode) (out : List URLMapping)
    (errs : List (YamlNode × String)) (hrec : ∀ n ∈ children, n.isRecord = true) :
    yamlSequence children (out, errs) = (out ++ children.map yamlRecord, errs) := by
  induction children generalizing out errs with
  | nil => simp [yamlSequence]
  | cons n rest ih =>
    have hn := hrec n (List.mem_cons_self _ _)
    have hrest : ∀ m ∈ rest, m.isRecord = true := fun m hm => hrec m (List.mem_cons_of_mem _ hm)
    simp only [yamlSequence, yamlElement_of_isRecord n hn]
    rw [ih _ _ hrest]
    simp

theorem yamlSequence_errors_of_bad_element (children : List YamlNode) (out : List URLMapping)
    (errs : List (YamlNode × String)) (hbad : children.any (fun n => !n.isRecord) = true) :
    (yamlSequence children (out, errs)).2 ≠ [] := by
  induction children generalizing out errs with
  | nil => simp at hbad
  | cons n rest ih =>
    by_cases hn : n.isRecord = true
    · have hrest : rest.any (fun n => !n.isRecord) = true := by
        simpa [List.any_cons, hn] using hbad
      simp only [yamlSequence, yamlElement_of_isRecord n hn]
      exact ih _ _ hrest
    · have hn2 : n.isRecord = false := by simpa using hn
      have herr := yamlElement_errors_of_not_isRecord n hn2
      have hgrow : errs ++ (yamlElement n).2 ≠ [] := by
        intro h
        exact herr (List.append_eq_nil.mp h).2
      simp only [yamlSequence]
      cases hel : yamlElement n with
      | mk rec errs1 =>
        rw [hel] at hgrow
        cases rec with
        | none => exact yamlSequence_errors_mono rest _ _ hgrow
        | some e => exact yamlSequence_errors_mono rest _ _ hgrow

theorem yamlUnmarshal_error_of_malformed (doc : YamlDocument) (hbad : doc.malformed = true) :
    ∃ err, (yamlUnmarshal doc).2 = some err := by
  cases doc with
  | invalid msg => exact ⟨_, rfl⟩
  | empty => simp [YamlDocument.malformed] at hbad
  | root n =>
    cases n with
    | null => simp [YamlDocument.malformed] at hbad
    | scalar value => exact ⟨_, rfl⟩
    | mapping kvs => exact ⟨_, rfl⟩
    | sequence children =>
      have hne := yamlSequence_errors_of_bad_element children [] []
        (by simpa [YamlDocument.malformed] using hbad)
      refine ⟨.type (yamlSequence children ([], [])).2, ?_⟩
      simp [yamlUnmarshal, hne]

theorem yamlUnmarshal_of_records (children : List YamlNode)
    (hok : (YamlDocument.root (.sequence children)).malformed = false) :
    yamlUnmarshal (.root (.sequence children)) = (children.map yamlRecord, none) := by
  have hrec : ∀ n ∈ children, n.isRecord = true := by
    simpa [YamlDocument.malformed] using hok
  simp [yamlUnmarshal, yamlSequence_of_records children [] [] hrec]

theorem yamlUnmarshal_ok_of_not_malformed (doc : YamlDocument) (hok : doc.malformed = false) :
    (yamlUnmarshal doc).2 = none := by
  cases doc with
  | invalid msg => simp [YamlDocument.malformed] at hok
  | empty => rfl
  | root n =>
    cases n with
    | null => rfl
    | scalar value => simp [YamlDocument.malformed] at hok
    | mapping kvs => simp [YamlDocument.malformed] at hok
    | sequence children => rw [yamlUnmarshal_of_records children hok]

theorem MapHandler.hit_sent (parse : URLParser) (pathsToUrls : GoMap) (fallback : Handler)
    (world : World) (r : Request) (url : String)
    (hhit : GoMap.get pathsToUrls r.Path = some url) (hunsent : world.w.sent = none) :
    (MapHandler parse pathsToUrls fallback world r).w.status = some 303
    ∧ (MapHandler parse pathsToUrls fallback world r).w.sentHeader "Location"
        = some [hexEscapeNonASCII (Redirect.target parse r.EscapedPath url)] := by
  rw [MapHandler.of_hit parse pathsToUrls fallback world r url hhit]
  obtain ⟨hdr, hsent, hloc⟩ :=
    Redirect.sent_of_unsent parse world.w r url StatusSeeOther hunsent
  constructor
  · show (Redirect parse world.w r url StatusSeeOther).status = some 303
    rw [ResponseWriter.status, hsent]
    rfl
  · show (Redirect parse world.w r url StatusSeeOther).sentHeader "Location" = _
    simp [ResponseWriter.sentHeader, hsent, hloc]

theorem MapHandler.hit_location_verbatim (parse : URLParser) (pathsToUrls : GoMap)
    (fallback : Handler) (world : World) (r : Request) (url : String)
    (hhit : GoMap.get pathsToUrls r.Path = some url) (hunsent : world.w.sent = none)
    (hascii : ∀ c ∈ url.data, c.toNat < 0x80)
    (hparse : ∀ u, parse url = some u → ¬ (u.Scheme = "" ∧ u.Host = "")) :
    (MapHandler parse pathsToUrls fallback world r).w.sentHeader "Location" = some [url] := by
  rw [(MapHandler.hit_sent parse pathsToUrls fallback world r url hhit hunsent).2,
    Redirect.target_of_not_relative parse r.EscapedPath url hparse,
    hexEscapeNonASCII_ascii url hascii]

/-! ## `path.Clean`: the fuel of its loops is enough -/

theorem Clean.copyElem_fuel (path : List Char) (n : Nat) (fuel r : Nat) (out : lazybuf)
    (hfuel : n ≤ r + fuel) :
    Clean.copyElem path n (fuel + 1) r out = Clean.copyElem path n fuel r out := by
  induction fuel generalizing r out with
  | zero =>
    have hr : ¬ r < n := by omega
    simp [Clean.copyElem, hr]
  | succ k ih =>
    rw [Clean.copyElem]
    conv_rhs => rw [Clean.copyElem]
    split_ifs with hc
    · exact ih (r + 1) _ (by omega)
    · rfl

theorem Clean.copyElem_advances (path : List Char) (n : Nat) (fuel r : Nat) (out : lazybuf)
    (hr : r < n) (hc : path.getD r (Char.ofNat 0) ≠ '/') :
    r + 1 ≤ (Clean.copyElem path n (fuel + 1) r out).1 := by
  have hmono : ∀ (k q : Nat) (o : lazybuf), q ≤ (Clean.copyElem path n k q o).1 := by
    intro k
    induction k with
    | zero => intro q o; simp [Clean.copyElem]
    | succ j ih =>
      intro q o
      rw [Clean.copyElem]
      split_ifs with h
      · exact Nat.le_trans (Nat.le_succ q) (ih (q + 1) _)
      · exact Nat.le_refl q
  rw [Clean.copyElem]
  simp only [hr, hc, ne_eq, not_false_eq_true, and_self, if_true]
  exact hmono fuel (r + 1) _

theorem Clean.backtrack_fuel (dotdot fuel : Nat) (out : lazybuf) (hfuel : out.w ≤ dotdot + fuel) :
    Clean.backtrack dotdot (fuel + 1) out = Clean.backtrack dotdot fuel out := by
  induction fuel generalizing out with
  | zero =>
    have hw : ¬ out.w > dotdot := by omega
    simp [Clean.backtrack, hw]
  | succ k ih =>
    rw [Clean.backtrack]
    conv_rhs => rw [Clean.backtrack]
    split_ifs with hc
    · exact ih _ (by simp only; omega)
    · rfl

theorem Clean.loop_fuel (path : List Char) (n : Nat) (rooted : Bool) (fuel r dotdot : Nat)
    (out : lazybuf) (hfuel : n ≤ r + fuel) :
    Clean.loop path n rooted (fuel + 1) r dotdot out = Clean.loop path n rooted fuel r dotdot out := by
  induction fuel generalizing r dotdot out with
  | zero =>
    have hr : ¬ r < n := by omega
    simp [Clean.loop, hr]
  | succ k ih =>
    rw [Clean.loop]
    conv_rhs => rw [Clean.loop]
    simp only
    split_ifs with h1 h2 h3 h4 h5 h6
    · exact ih _ _ _ (by omega)
    · exact ih _ _ _ (by omega)
    · exact ih _ _ _ (by omega)
    · exact ih _ _ _ (by omega)
    · exact ih _ _ _ (by omega)
    · exact ih _ _ _ (by omega)
    · have hadv : r + 1 ≤ (Clean.copyElem path n n r (out.append '/')).1 := by
        obtain ⟨m, hm⟩ : ∃ m, n = m + 1 := ⟨n - 1, by omega⟩
        have h := Clean.copyElem_advances path n m r (out.append '/') h1 h2
        rw [← hm] at h
        exact h
      exact ih _ _ _ (by omega)
    · have hadv : r + 1 ≤ (Clean.copyElem path n n r out).1 := by
        obtain ⟨m, hm⟩ : ∃ m, n = m + 1 := ⟨n - 1, by omega⟩
        have h := Clean.copyElem_advances path n m r out h1 h2
        rw [← hm] at h
        exact h
      exact ih _ _ _ (by omega)
    · rfl

theorem Clean.loop_fuel_enough (path : List Char) (n : Nat) (rooted : Bool)
    (fuel extra r dotdot : Nat) (out : lazybuf) (hfuel : n ≤ r + fuel) :
    Clean.loop path n rooted (fuel + extra) r dotdot out
      = Clean.loop path n rooted fuel r dotdot out := by
  induction extra with
  | zero => rfl
  | succ k ih =>
    rw [← Nat.add_assoc, Clean.loop_fuel path n rooted (fuel + k) r dotdot out (by omega)]
    exact ih

/-! ## `hexEscapeNonASCII` leaves ASCII only -/

theorem utf8Bytes_lt (c : Char) : ∀ b ∈ utf8Bytes c.toNat, b < 256 := by
  have hvalid : c.toNat < 0x110000 := by
    have h := c.valid
    simp only [UInt32.isValidChar, Nat.isValidChar] at h
    have hc : c.toNat = c.val.toNat := rfl
    omega
  intro b hb
  unfold utf8Bytes at hb
  split_ifs at hb <;> simp at hb <;> omega

theorem hexDigit_ascii (d : Nat) (hd : d < 16) : (hexDigit d).toNat < 0x80 := by
  interval_cases d <;> decide

theorem hexEscapeChar_ascii (c : Char) : ∀ x ∈ hexEscapeChar c, x.toNat < 0x80 := by
  intro x hx
  unfold hexEscapeChar at hx
  split_ifs at hx with hc
  · simp at hx
    rw [hx]; exact hc
  · simp only [List.mem_flatMap, hexEscapeByte, List.mem_cons, List.mem_singleton,
      List.not_mem_nil, or_false] at hx
    obtain ⟨b, hb, hx⟩ := hx
    have hlt := utf8Bytes_lt c b hb
    rcases hx with hx | hx | hx
    · rw [hx]; decide
    · rw [hx]; exact hexDigit_ascii _ (by omega)
    · rw [hx]; exact hexDigit_ascii _ (by omega)

theorem hexEscapeNonASCII_is_ascii (s : String) :
    ∀ x ∈ (hexEscapeNonASCII s).data, x.toNat < 0x80 := by
  intro x hx
  simp only [hexEscapeNonASCII, List.mem_flatMap] at hx
  obtain ⟨c, _, hxc⟩ := hx
  exact hexEscapeChar_ascii c x hxc

/-! ## The claims -/

/-- C1, amended: on a hit, with nothing sent yet, the response has status 303 and its
`Location` is the target `http.Redirect` computes from the mapped value, with every
byte above ASCII escaped. That is the mapped value verbatim, unvalidated, when it is
ASCII and `url.Parse` rejects it or finds a scheme or a host in it; a value parsed with
neither scheme nor host is resolved against the escaped path of the request and
cleaned. In every case the `Location` sent holds no byte above ASCII. -/
theorem MapHandler_hit_status_location (parse : URLParser) (pathsToUrls : GoMap)
    (fallback : Handler) (world : World) (r : Request) (url : String)
    (hhit : GoMap.get pathsToUrls r.Path = some url) (hunsent : world.w.sent = none) :
    (MapHandler parse pathsToUrls fallback world r).w.status = some 303
    ∧ (MapHandler parse pathsToUrls fallback world r).w.sentHeader "Location"
        = some [hexEscapeNonASCII (Redirect.target parse r.EscapedPath url)]
    ∧ ((∀ c ∈ url.data, c.toNat < 0x80) →
        (∀ u, parse url = some u → ¬ (u.Scheme = "" ∧ u.Host = "")) →
        (MapHandler parse pathsToUrls fallback world r).w.sentHeader "Location" = some [url])
    ∧ (parse url = some { Scheme := "", Host := "" } →
        (MapHandler parse pathsToUrls fallback world r).w.sentHeader "Location"
          = some [hexEscapeNonASCII (Redirect.resolve r.EscapedPath url)])
    ∧ (∃ loc, (MapHandler parse pathsToUrls fallback world r).w.sentHeader "Location"
          = some [loc] ∧ ∀ c ∈ loc.data, c.toNat < 0x80) := by
  have h := MapHandler.hit_sent parse pathsToUrls fallback world r url hhit hunsent
  refine ⟨h.1, h.2, ?_, ?_, ⟨_, h.2, hexEscapeNonASCII_is_ascii _⟩⟩
  · intro hascii hparse
    exact MapHandler.hit_location_verbatim parse pathsToUrls fallback world r url hhit hunsent
      hascii hparse
  · intro hrel
    rw [h.2]
    simp [Redirect.target, hrel]

/-- C1, witness: the sample table and a `GET` of `/urlshort`; and the relative value
`docs/intro` asked for under `/go dir/start` and under `/café/start`, which is resolved
against the escaped path of the request. -/
theorem MapHandler_hit_status_location_witness :
    GoMap.get [("/urlshort", sampleURL)] (sampleRequest "GET" "/urlshort").Path = some sampleURL
    ∧ freshWorld.w.sent = none
    ∧ (MapHandler sampleParse [("/urlshort", sampleURL)] helloFallback freshWorld
        (sampleRequest "GET" "/urlshort")).w.status = some 303
    ∧ (MapHandler sampleParse [("/urlshort", sampleURL)] helloFallback freshWorld
        (sampleRequest "GET" "/urlshort")).w.sentHeader "Location"
        = some ["https://github.com/gophercises/urlshort"]
    ∧ (MapHandler sampleParse [("/go dir/start", "docs/intro")] helloFallback freshWorld
        (sampleRequest "GET" "/go dir/start")).w.sentHeader "Location"
        = some ["/go%20dir/docs/intro"]
    ∧ (MapHandler sampleParse [("/café/start", "docs/intro")] helloFallback freshWorld
        (sampleRequest "GET" "/café/start")).w.sentHeader "Location"
        = some ["/caf%C3%A9/docs/intro"] :=
  ⟨by decide, rfl,
    (MapHandler_hit_status_location sampleParse [("/urlshort", sampleURL)] helloFallback
      freshWorld (sampleRequest "GET" "/urlshort") sampleURL (by decide) rfl).1,
    (MapHandler_hit_status_location sampleParse [("/urlshort", sampleURL)] helloFallback
      freshWorld (sampleRequest "GET" "/urlshort") sampleURL (by decide) rfl).2.2.1
      (by decide) (by decide),
    ((MapHandler_hit_status_location sampleParse [("/go dir/start", "docs/intro")]
      helloFallback freshWorld (sampleRequest "GET" "/go dir/start") "docs/intro"
      (by decide) rfl).2.2.2.1 rfl).trans (by decide),
    ((MapHandler_hit_status_location sampleParse [("/café/start", "docs/intro")]
      helloFallback freshWorld (sampleRequest "GET" "/café/start") "docs/intro"
      (by decide) rfl).2.2.2.1 rfl).trans (by decide)⟩

/-- C1, as stated, fails: a mapped value with a byte above ASCII is never the `Location`,
whatever `url.Parse` says of it, and neither is the relative value `docs/intro`, which
`url.Parse` accepts with no scheme and no host. -/
theorem MapHandler_location_not_verbatim :
    (¬ ∃ parse : URLParser,
        (MapHandler parse [("/fr", "https://example.com/café")] helloFallback freshWorld
          (sampleRequest "GET" "/fr")).w.sentHeader "Location"
          = some ["https://example.com/café"])
    ∧ (¬ ∃ parse : URLParser, parse "docs/intro" = some { Scheme := "", Host := "" }
        ∧ (MapHandler parse [("/go/start", "docs/intro")] helloFallback freshWorld
            (sampleRequest "GET" "/go/start")).w.sentHeader "Location" = some ["docs/intro"])
    ∧ (MapHandler sampleParse [("/go/start", "docs/intro")] helloFallback freshWorld
          (sampleRequest "GET" "/go/start")).w.sentHeader "Location" = some ["/go/docs/intro"] := by
  refine ⟨?_, ?_, by decide⟩
  · rintro ⟨parse, h⟩
    rw [MapHandler.of_hit parse _ helloFallback freshWorld (sampleRequest "GET" "/fr")
      "https://example.com/café" (by decide)] at h
    obtain ⟨hdr, hsent, hloc⟩ := Redirect.sent_of_unsent parse freshWorld.w
      (sampleRequest "GET" "/fr") "https://example.com/café" StatusSeeOther rfl
    simp only [ResponseWriter.sentHeader, hsent, hloc, Option.some.injEq, List.cons.injEq,
      and_true] at h
    rcases Redirect.target_cases parse (sampleRequest "GET" "/fr").EscapedPath
      "https://example.com/café" with ht | ht
    · rw [ht] at h
      exact absurd h (by decide)
    · rw [ht] at h
      exact absurd h (by decide)
  · rintro ⟨parse, hparse, h⟩
    rw [MapHandler.of_hit parse _ helloFallback freshWorld (sampleRequest "GET" "/go/start")
      "docs/intro" (by decide)] at h
    obtain ⟨hdr, hsent, hloc⟩ := Redirect.sent_of_unsent parse freshWorld.w
      (sampleRequest "GET" "/go/start") "docs/intro" StatusSeeOther rfl
    simp only [ResponseWriter.sentHeader, hsent, hloc, Option.some.injEq, List.cons.injEq,
      and_true] at h
    have ht : Redirect.target parse (sampleRequest "GET" "/go/start").EscapedPath "docs/intro"
        = Redirect.resolve (sampleRequest "GET" "/go/start").EscapedPath "docs/intro" := by
      simp [Redirect.target, hparse]
    rw [ht] at h
    exact absurd h (by decide)

/-- C2: on a miss the handler logs one line and hands the request and the response
writer, untouched, to the fallback; the outcome is what that one call produces. -/
theorem MapHandler_miss_delegates (parse : URLParser) (pathsToUrls : GoMap)
    (fallback : Handler) (world : World) (r : Request)
    (hmiss : r.Path ∉ GoMap.keys pathsToUrls) :
    MapHandler parse pathsToUrls fallback world r
      = fallback (world.Printf ("No mapping found for " ++ r.Path ++ "\n")) r
    ∧ (world.Printf ("No mapping found for " ++ r.Path ++ "\n")).w = world.w
    ∧ (MapHandler parse pathsToUrls fallback world r).w
        = (fallback (world.Printf ("No mapping found for " ++ r.Path ++ "\n")) r).w := by
  have hget := (GoMap.get_eq_none_iff pathsToUrls r.Path).mpr hmiss
  have h := MapHandler.of_miss parse pathsToUrls fallback world r hget
  refine ⟨?_, rfl, ?_⟩
  · rw [h]; rfl
  · rw [h]; rfl

/-- C2, witness: `/unknown` against the sample table; the greeting of the fallback is
the whole response. -/
theorem MapHandler_miss_delegates_witness :
    (sampleRequest "GET" "/unknown").Path ∉ GoMap.keys [("/urlshort", sampleURL)]
    ∧ (MapHandler sampleParse [("/urlshort", sampleURL)] helloFallback freshWorld
        (sampleRequest "GET" "/unknown")).w
        = { header := [], sent := some (200, []), body := "Hello, world!\n" } :=
  ⟨by decide,
    (MapHandler_miss_delegates sampleParse [("/urlshort", sampleURL)] helloFallback freshWorld
      (sampleRequest "GET" "/unknown") (by decide)).2.2.trans rfl⟩

/-- C3: when the payload deserialises into records with pairwise distinct paths, the
table `parseYAML` returns has one entry for each of them, as many as there are distinct
paths, and the path of each record reads back the url of that record. -/
theorem parseYAML_distinct_paths {Payload : Type} (Unmarshal : Unmarshaler Payload)
    (yml : Payload) (log : List String) (parsed : List URLMapping)
    (hok : Unmarshal yml = (parsed, none))
    (hdistinct : (parsed.map URLMapping.Path).Nodup) :
    ∃ table, (parseYAML Unmarshal yml log).1 = (some table, none)
      ∧ GoMap.len table = (parsed.map URLMapping.Path).toFinset.card
      ∧ GoMap.len table = parsed.length
      ∧ ∀ v ∈ parsed, GoMap.get table v.Path = some v.URL := by
  refine ⟨(parseYAML.fill parsed ([], log)).1, ?_, ?_, ?_, ?_⟩
  · rw [parseYAML_of_unmarshal_ok Unmarshal yml log parsed hok]
  · exact parseYAML.fill_len parsed log
  · rw [parseYAML.fill_len parsed log, List.toFinset_card_of_nodup hdistinct, List.length_map]
  · intro v hv
    obtain ⟨pre, post, hsplit⟩ := List.append_of_mem hv
    have habs : ∀ x ∈ post, x.Path ≠ v.Path := by
      intro x hx heq
      rw [hsplit, List.map_append, List.map_cons] at hdistinct
      have hnd := (List.nodup_append.mp hdistinct).2.1
      have hnot := (List.nodup_cons.mp hnd).1
      exact hnot (heq ▸ List.mem_map_of_mem URLMapping.Path hx)
    rw [hsplit]
    exact parseYAML.fill_get_last pre post v ([], log) habs

/-- C3, witness: two records with different paths. -/
theorem parseYAML_distinct_paths_witness :
    yamlUnmarshal distinctDocument
      = ([{ Path := "/a", URL := "u1" }, { Path := "/b", URL := "u2" }], none)
    ∧ ∃ table, (parseYAML yamlUnmarshal distinctDocument []).1 = (some table, none)
      ∧ GoMap.len table = 2 :=
  ⟨rfl,
    (parseYAML_distinct_paths yamlUnmarshal distinctDocument []
      [{ Path := "/a", URL := "u1" }, { Path := "/b", URL := "u2" }] rfl (by decide)).imp
      (fun _ h => ⟨h.1, h.2.2.1⟩)⟩

/-- C4: whatever records the payload deserialises into, the table `parseYAML` returns
has one entry per distinct path, and a record after which no record carries the same
path, the last of its path in input order, is the one its path reads back. -/
theorem parseYAML_last_write_wins {Payload : Type} (Unmarshal : Unmarshaler Payload)
    (yml : Payload) (log : List String) (parsed : List URLMapping)
    (hok : Unmarshal yml = (parsed, none)) :
    ∃ table, (parseYAML Unmarshal yml log).1 = (some table, none)
      ∧ GoMap.len table = (parsed.map URLMapping.Path).toFinset.card
      ∧ (GoMap.keys table).Nodup
      ∧ ∀ pre v post, parsed = pre ++ v :: post → (∀ x ∈ post, x.Path ≠ v.Path) →
          GoMap.get table v.Path = some v.URL := by
  refine ⟨(parseYAML.fill parsed ([], log)).1, ?_, ?_, ?_, ?_⟩
  · rw [parseYAML_of_unmarshal_ok Unmarshal yml log parsed hok]
  · exact parseYAML.fill_len parsed log
  · exact parseYAML.fill_nodup_keys parsed ([], log) (by simp [GoMap.keys])
  · intro pre v post hsplit habs
    rw [hsplit]
    exact parseYAML.fill_get_last pre post v ([], log) habs

/-- C4, witness: `/a` occurs twice and reads back the later url; the table has two
entries for three records. -/
theorem parseYAML_last_write_wins_witness :
    yamlUnmarshal duplicateDocument
      = ([{ Path := "/a", URL := "first" }, { Path := "/b", URL := "other" },
          { Path := "/a", URL := "second" }], none)
    ∧ ∃ table, (parseYAML yamlUnmarshal duplicateDocument []).1 = (some table, none)
      ∧ GoMap.len table = 2
      ∧ GoMap.get table "/a" = some "second" :=
  ⟨rfl,
    (parseYAML_last_write_wins yamlUnmarshal duplicateDocument []
      [{ Path := "/a", URL := "first" }, { Path := "/b", URL := "other" },
        { Path := "/a", URL := "second" }] rfl).imp
      (fun _ h => ⟨h.1, h.2.1.trans (by decide),
        h.2.2.2 [{ Path := "/a", URL := "first" }, { Path := "/b", URL := "other" }]
          { Path := "/a", URL := "second" } [] rfl (by simp)⟩)⟩

/-- C5, amended: `YAMLHandler` fails exactly on the malformed payloads, those of the wrong
structural shape (not YAML, a root that is neither a list nor null, a list element that
is not a record, a key that is no scalar, a `path` or `url` that is no scalar): for
them the decoder reports an error and `YAMLHandler` returns that error with a nil
handler, no table being built; every other payload gives no error and a handler. A
record that lacks `path` or `url` is not malformed: it is decoded, in its place in the
list, with that field empty. -/
theorem YAMLHandler_fails_iff_malformed (parse : URLParser) (fallback : Handler)
    (log : List String) (doc : YamlDocument) :
    (doc.malformed = true →
      ∃ err, (yamlUnmarshal doc).2 = some err
        ∧ (parseYAML yamlUnmarshal doc log).1 = (none, some err)
        ∧ YAMLHandler yamlUnmarshal parse doc fallback log = ((none, some err), log))
    ∧ (doc.malformed = false →
      (yamlUnmarshal doc).2 = none
        ∧ ∃ table handler, (parseYAML yamlUnmarshal doc log).1 = (some table, none)
          ∧ (YAMLHandler yamlUnmarshal parse doc fallback log).1 = (some handler, none))
    ∧ (∀ children, doc = .root (.sequence children) → doc.malformed = false →
        (yamlUnmarshal doc).1.length = children.length
        ∧ ∀ (i : Nat) (kvs : List (YamlNode × YamlNode)) (v : URLMapping),
            children[i]? = some (.mapping kvs) → (yamlUnmarshal doc).1[i]? = some v →
            ((∀ kv ∈ kvs, kv.1 ≠ YamlNode.scalar "url") → v.URL = "")
            ∧ ((∀ kv ∈ kvs, kv.1 ≠ YamlNode.scalar "path") → v.Path = "")) := by
  refine ⟨fun hbad => ?_, fun hok => ?_, fun children hdoc hok => ?_⟩
  · obtain ⟨err, herr⟩ := yamlUnmarshal_error_of_malformed doc hbad
    refine ⟨err, herr, ?_, ?_⟩
    · rw [parseYAML_of_unmarshal_error yamlUnmarshal doc log err herr]
    · exact YAMLHandler_of_unmarshal_error yamlUnmarshal parse doc fallback log err herr
  · have hnone := yamlUnmarshal_ok_of_not_malformed doc hok
    refine ⟨hnone, (parseYAML.fill (yamlUnmarshal doc).1 ([], log)).1,
      MapHandler parse (parseYAML.fill (yamlUnmarshal doc).1 ([], log)).1 fallback, ?_, ?_⟩
    · simp [parseYAML, hnone]
    · rw [YAMLHandler_of_unmarshal_ok yamlUnmarshal parse doc fallback log hnone]
  · subst hdoc
    rw [yamlUnmarshal_of_records children hok]
    refine ⟨by simp, fun i kvs v hchild hv => ?_⟩
    have hrec : v = yamlRecord (.mapping kvs) := by
      simp only [List.getElem?_map, hchild, Option.map_some'] at hv
      exact (Option.some.inj hv).symm
    subst hrec
    exact ⟨fun hno => yamlStruct_URL_of_no_key kvs _ _ hno,
      fun hno => yamlStruct_Path_of_no_key kvs _ _ hno⟩

/-- C5, witness: a mapping where the list of records is expected, and a record whose
`path` is a mapping, are malformed and refused. -/
theorem YAMLHandler_fails_iff_malformed_witness :
    mappingDocument.malformed = true
    ∧ nestedPathDocument.malformed = true
    ∧ (∃ err, (yamlUnmarshal mappingDocument).2 = some err
      ∧ (parseYAML yamlUnmarshal mappingDocument []).1 = (none, some err)
      ∧ YAMLHandler yamlUnmarshal sampleParse mappingDocument helloFallback []
          = ((none, some err), []))
    ∧ (∃ err, (yamlUnmarshal nestedPathDocument).2 = some err
      ∧ (parseYAML yamlUnmarshal nestedPathDocument []).1 = (none, some err)
      ∧ YAMLHandler yamlUnmarshal sampleParse nestedPathDocument helloFallback []
          = ((none, some err), [])) :=
  ⟨rfl, rfl,
    (YAMLHandler_fails_iff_malformed sampleParse helloFallback [] mappingDocument).1 rfl,
    (YAMLHandler_fails_iff_malformed sampleParse helloFallback [] nestedPathDocument).1 rfl⟩

/-- C5, as stated, fails: the record `- path: /a` has no `url` and the record `- url: /b`
no `path`, and construction succeeds on both: no error, a handler, and a table with
the empty string in the place of what is missing. -/
theorem YAMLHandler_missing_field_accepted :
    yamlUnmarshal noURLDocument = ([{ Path := "/a", URL := "" }], none)
    ∧ (parseYAML yamlUnmarshal noURLDocument []).1 = (some [("/a", "")], none)
    ∧ (YAMLHandler yamlUnmarshal sampleParse noURLDocument helloFallback []).1.2 = none
    ∧ (YAMLHandler yamlUnmarshal sampleParse noURLDocument helloFallback []).1.1.isSome = true
    ∧ yamlUnmarshal noPathDocument = ([{ Path := "", URL := "/b" }], none)
    ∧ (parseYAML yamlUnmarshal noPathDocument []).1 = (some [("", "/b")], none)
    ∧ (YAMLHandler yamlUnmarshal sampleParse noPathDocument helloFallback []).1.2 = none
    ∧ (YAMLHandler yamlUnmarshal sampleParse noPathDocument helloFallback []).1.1.isSome = true :=
  ⟨rfl, rfl, rfl, rfl, rfl, rfl, rfl, rfl⟩

/-- C6: `YAMLHandler` returns an error exactly when `yaml.Unmarshal` does, and then that
very error; when it does not, there is no error and the handler returned serves every
request as `MapHandler` does on the table of `parseYAML` with the same fallback. -/
theorem YAMLHandler_error_iff_unmarshal_error {Payload : Type}
    (Unmarshal : Unmarshaler Payload) (parse : URLParser) (yml : Payload)
    (fallback : Handler) (log : List String) :
    ((YAMLHandler Unmarshal parse yml fallback log).1.2.isSome = true
        ↔ (Unmarshal yml).2.isSome = true)
    ∧ (YAMLHandler Unmarshal parse yml fallback log).1.2 = (Unmarshal yml).2
    ∧ ((Unmarshal yml).2 = none →
        ∃ table handler, (parseYAML Unmarshal yml log).1 = (some table, none)
          ∧ (YAMLHandler Unmarshal parse yml fallback log).1 = (some handler, none)
          ∧ ∀ world r, handler world r = MapHandler parse table fallback world r) := by
  cases herr : (Unmarshal yml).2 with
  | some err =>
    rw [YAMLHandler_of_unmarshal_error Unmarshal parse yml fallback log err herr]
    simp
  | none =>
    rw [YAMLHandler_of_unmarshal_ok Unmarshal parse yml fallback log herr]
    refine ⟨by simp, rfl, fun _ => ?_⟩
    refine ⟨(parseYAML.fill (Unmarshal yml).1 ([], log)).1, _, ?_, rfl, fun _ _ => rfl⟩
    simp [parseYAML, herr]

/-- C7, amended: on a hit the handler adds no body when the method is not `GET` or the
response already carries a `Content-Type`. For a `GET` without one, `http.Redirect`
sets `Content-Type: text/html; charset=utf-8` and writes the short HTML note that
links to the redirect target, which is the mapped value itself when that is ASCII and
`url.Parse` rejects it or finds a scheme or a host in it. For a `HEAD` without one the
same header is set and no body written; in every other case no `Content-Type` is added. -/
theorem MapHandler_hit_body (parse : URLParser) (pathsToUrls : GoMap) (fallback : Handler)
    (world : World) (r : Request) (url : String)
    (hhit : GoMap.get pathsToUrls r.Path = some url) :
    ((r.Method ≠ "GET" ∨ (Header.get world.w.header "Content-Type").isSome = true) →
        (MapHandler parse pathsToUrls fallback world r).w.body = world.w.body)
    ∧ (r.Method = "GET" → (Header.get world.w.header "Content-Type").isSome = false →
        (MapHandler parse pathsToUrls fallback world r).w.body
          = world.w.body ++ ("<a href=\""
              ++ htmlEscape (Redirect.target parse r.EscapedPath url)
              ++ "\">See Other</a>.\n\n")
        ∧ Header.get (MapHandler parse pathsToUrls fallback world r).w.header "Content-Type"
            = some ["text/html; charset=utf-8"]
        ∧ (world.w.sent = none →
            (MapHandler parse pathsToUrls fallback world r).w.sentHeader "Content-Type"
              = some ["text/html; charset=utf-8"])
        ∧ ((∀ c ∈ url.data, c.toNat < 0x80) →
            (∀ u, parse url = some u → ¬ (u.Scheme = "" ∧ u.Host = "")) →
            (MapHandler parse pathsToUrls fallback world r).w.body
              = world.w.body ++ ("<a href=\"" ++ htmlEscape url ++ "\">See Other</a>.\n\n")))
    ∧ (r.Method = "HEAD" → (Header.get world.w.header "Content-Type").isSome = false →
        Header.get (MapHandler parse pathsToUrls fallback world r).w.header "Content-Type"
          = some ["text/html; charset=utf-8"])
    ∧ (((r.Method ≠ "GET" ∧ r.Method ≠ "HEAD")
          ∨ (Header.get world.w.header "Content-Type").isSome = true) →
        Header.get (MapHandler parse pathsToUrls fallback world r).w.header "Content-Type"
          = Header.get world.w.header "Content-Type") := by
  have hne : ("Location" : String) ≠ "Content-Type" := by decide
  rw [MapHandler.of_hit parse pathsToUrls fallback world r url hhit]
  have hhdr := Redirect.header_eq parse world.w r url StatusSeeOther
  refine ⟨fun hno => ?_, fun hget hct => ?_, fun hhead hct => ?_, fun hno => ?_⟩
  · exact Redirect.body_of_no_note parse world.w r url StatusSeeOther hno
  · have hbody : (Redirect parse world.w r url StatusSeeOther).body
        = world.w.body ++ ("<a href=\""
            ++ htmlEscape (Redirect.target parse r.EscapedPath url)
            ++ "\">See Other</a>.\n\n") := by
      rw [Redirect.body_of_note parse world.w r url StatusSeeOther hget hct,
        Redirect.note_seeOther]
    have hset : Header.get (Redirect parse world.w r url StatusSeeOther).header "Content-Type"
        = some ["text/html; charset=utf-8"] := by
      rw [hhdr, if_pos ⟨hct, Or.inl hget⟩, Header.get_Set_self]
    refine ⟨hbody, hset, fun hunsent => ?_, fun hascii hparse => ?_⟩
    · show (Redirect parse world.w r url StatusSeeOther).sentHeader "Content-Type" = _
      rw [ResponseWriter.sentHeader,
        Redirect.sent_eq parse world.w r url StatusSeeOther hunsent]
      exact hset
    · show (Redirect parse world.w r url StatusSeeOther).body = _
      rw [hbody, Redirect.target_of_not_relative parse r.EscapedPath url hparse]
  · show Header.get (Redirect parse world.w r url StatusSeeOther).header "Content-Type" = _
    rw [hhdr, if_pos ⟨hct, Or.inr hhead⟩, Header.get_Set_self]
  · show Header.get (Redirect parse world.w r url StatusSeeOther).header "Content-Type" = _
    have hcond : ¬ ((Header.get world.w.header "Content-Type").isSome = false
        ∧ (r.Method = "GET" ∨ r.Method = "HEAD")) := by
      rintro ⟨hct, hm⟩
      rcases hno with ⟨hg, hh⟩ | hct2
      · rcases hm with hm | hm
        · exact hg hm
        · exact hh hm
      · rw [hct] at hct2
        exact Bool.noConfusion hct2
    rw [hhdr, if_neg hcond, Header.get_Set_other _ _ _ _ hne]

/-- C7, witness: a `POST` of `/urlshort` gets the redirect with an empty body and no
`Content-Type`; a `GET` gets the header `Content-Type`. -/
theorem MapHandler_hit_body_witness :
    GoMap.get [("/urlshort", sampleURL)] (sampleRequest "POST" "/urlshort").Path = some sampleURL
    ∧ (MapHandler sampleParse [("/urlshort", sampleURL)] helloFallback freshWorld
        (sampleRequest "POST" "/urlshort")).w.body = ""
    ∧ Header.get (MapHandler sampleParse [("/urlshort", sampleURL)] helloFallback freshWorld
        (sampleRequest "POST" "/urlshort")).w.header "Content-Type" = none
    ∧ (MapHandler sampleParse [("/urlshort", sampleURL)] helloFallback freshWorld
        (sampleRequest "GET" "/urlshort")).w.sentHeader "Content-Type"
        = some ["text/html; charset=utf-8"] :=
  ⟨by decide,
    (MapHandler_hit_body sampleParse [("/urlshort", sampleURL)] helloFallback freshWorld
      (sampleRequest "POST" "/urlshort") sampleURL (by decide)).1 (Or.inl (by decide)),
    (MapHandler_hit_body sampleParse [("/urlshort", sampleURL)] helloFallback freshWorld
      (sampleRequest "POST" "/urlshort") sampleURL (by decide)).2.2.2
      (Or.inl ⟨by decide, by decide⟩),
    ((MapHandler_hit_body sampleParse [("/urlshort", sampleURL)] helloFallback freshWorld
      (sampleRequest "GET" "/urlshort") sampleURL (by decide)).2.1 rfl rfl).2.2.1 rfl⟩

/-- C7, as stated, fails: the redirect answering a `GET` of `/urlshort` has a body. -/
theorem MapHandler_get_redirect_has_body :
    (MapHandler sampleParse [("/urlshort", sampleURL)] helloFallback freshWorld
        (sampleRequest "GET" "/urlshort")).w.status = some 303
    ∧ (MapHandler sampleParse [("/urlshort", sampleURL)] helloFallback freshWorld
        (sampleRequest "GET" "/urlshort")).w.body
        = "<a href=\"https://github.com/gophercises/urlshort\">See Other</a>.\n\n"
    ∧ (MapHandler sampleParse [("/urlshort", sampleURL)] helloFallback freshWorld
        (sampleRequest "GET" "/urlshort")).w.body ≠ "" := by
  refine ⟨by decide, by decide, by decide⟩

/-- C8: when the payload deserialises into the single record `/urlshort` to
`https://github.com/gophercises/urlshort`, in which `url.Parse` finds the scheme `https`
and the host `github.com`, `YAMLHandler` returns a handler; a request for `/urlshort`
gets status 303 with exactly that `Location`, by `http.Redirect` alone, and a request
for `/unknown` is handed to the fallback with the response writer untouched. -/
theorem YAMLHandler_sample_end_to_end {Payload : Type} (Unmarshal : Unmarshaler Payload)
    (parse : URLParser) (yml : Payload) (fallback : Handler) (log : List String)
    (world : World)
    (hyaml : Unmarshal yml = ([{ Path := "/urlshort", URL := sampleURL }], none))
    (hparse : parse sampleURL = some { Scheme := "https", Host := "github.com" })
    (hunsent : world.w.sent = none) :
    ∃ handler, (YAMLHandler Unmarshal parse yml fallback log).1 = (some handler, none)
      ∧ (∀ r, r.Path = "/urlshort" →
          (handler world r).w.status = some 303
          ∧ (handler world r).w.sentHeader "Location"
              = some ["https://github.com/gophercises/urlshort"]
          ∧ handler world r
              = { w := Redirect parse world.w r sampleURL StatusSeeOther,
                  log := world.log ++ ["Redirecting to " ++ sampleURL ++ "\n"] })
      ∧ (∀ r, r.Path = "/unknown" →
          handler world r = fallback (world.Printf "No mapping found for /unknown\n") r
          ∧ (world.Printf "No mapping found for /unknown\n").w = world.w) := by
  have herr : (Unmarshal yml).2 = none := by rw [hyaml]
  have htable : (parseYAML.fill (Unmarshal yml).1 ([], log)).1 = [("/urlshort", sampleURL)] := by
    rw [hyaml]; rfl
  refine ⟨MapHandler parse [("/urlshort", sampleURL)] fallback, ?_, ?_, ?_⟩
  · rw [YAMLHandler_of_unmarshal_ok Unmarshal parse yml fallback log herr, htable]
  · intro r hr
    have hhit : GoMap.get [("/urlshort", sampleURL)] r.Path = some sampleURL := by
      rw [hr]; decide
    have hnotrel : ∀ u, parse sampleURL = some u → ¬ (u.Scheme = "" ∧ u.Host = "") := by
      intro u hu
      rw [hparse] at hu
      cases hu
      decide
    exact ⟨(MapHandler.hit_sent parse _ fallback world r sampleURL hhit hunsent).1,
      MapHandler.hit_location_verbatim parse _ fallback world r sampleURL hhit hunsent
        (by decide) hnotrel,
      MapHandler.of_hit parse _ fallback world r sampleURL hhit⟩
  · intro r hr
    have hmiss : GoMap.get [("/urlshort", sampleURL)] r.Path = none := by
      rw [hr]; decide
    refine ⟨?_, rfl⟩
    rw [MapHandler.of_miss parse _ fallback world r hmiss, hr]
    rfl

/-- C8, witness: the sample payload under the decoder, a fresh response writer. -/
theorem YAMLHandler_sample_end_to_end_witness :
    yamlUnmarshal sampleDocument = ([{ Path := "/urlshort", URL := sampleURL }], none)
    ∧ sampleParse sampleURL = some { Scheme := "https", Host := "github.com" }
    ∧ freshWorld.w.sent = none
    ∧ ∃ handler,
        (YAMLHandler yamlUnmarshal sampleParse sampleDocument helloFallback []).1
          = (some handler, none)
        ∧ (handler freshWorld (sampleRequest "GET" "/urlshort")).w.sentHeader "Location"
            = some ["https://github.com/gophercises/urlshort"]
        ∧ (handler freshWorld (sampleRequest "GET" "/unknown")).w.body = "Hello, world!\n" :=
  ⟨rfl, rfl, rfl,
    (YAMLHandler_sample_end_to_end yamlUnmarshal sampleParse sampleDocument helloFallback []
      freshWorld rfl rfl rfl).imp
      (fun _ h => ⟨h.1, (h.2.1 (sampleRequest "GET" "/urlshort") rfl).2.1,
        by rw [(h.2.2 (sampleRequest "GET" "/unknown") rfl).1]; rfl⟩)⟩

/-- C9, amended: the handler itself never writes the lookup table. On a hit the table
after the request is the table before, whatever the fallback; on a miss the handler
hands the table over as it is and the outcome, table included, is what the fallback
leaves. So for every fallback that does not write the table, as every fallback without
a reference to it, the table after a request has the keys and values it had before,
and in any run of requests each one is served against the table as it was built. -/
theorem MapHandler_serve_table (parse : URLParser) (fallback : SharingHandler)
    (pathsToUrls : GoMap) (world : World) (r : Request) :
    (∀ url, GoMap.get pathsToUrls r.Path = some url →
        (MapHandler.serve parse fallback (pathsToUrls, world) r).1 = pathsToUrls)
    ∧ (GoMap.get pathsToUrls r.Path = none →
        MapHandler.serve parse fallback (pathsToUrls, world) r
          = fallback (pathsToUrls, world.Printf ("No mapping found for " ++ r.Path ++ "\n")) r)
    ∧ ((∀ st q, (fallback st q).1 = st.1) →
        (MapHandler.serve parse fallback (pathsToUrls, world) r).1 = pathsToUrls
        ∧ (∀ k, GoMap.get (MapHandler.serve parse fallback (pathsToUrls, world) r).1 k
            = GoMap.get pathsToUrls k)
        ∧ ∀ (rs : List Request) (log : List String),
            ∀ e ∈ MapHandler.serveAll parse fallback rs (pathsToUrls, log),
              e.1 = pathsToUrls ∧ e.2.1 = pathsToUrls)
    ∧ (∀ (plain : Handler) (rs : List Request) (log : List String),
        ∀ e ∈ MapHandler.serveAll parse (Handler.sharing plain) rs (pathsToUrls, log),
          e.1 = pathsToUrls ∧ e.2.1 = pathsToUrls
          ∧ ∃ q ∈ rs, ∃ before : List String,
              e.2.2 = MapHandler parse pathsToUrls plain
                { w := ResponseWriter.fresh, log := before } q) := by
  have hhit : ∀ (fb : SharingHandler) (wd : World) (q : Request) (url : String),
      GoMap.get pathsToUrls q.Path = some url →
      (MapHandler.serve parse fb (pathsToUrls, wd) q).1 = pathsToUrls := by
    intro fb wd q url hget
    simp [MapHandler.serve, hget]
  have hkeep : ∀ (fb : SharingHandler), (∀ st q, (fb st q).1 = st.1) →
      ∀ (wd : World) (q : Request),
      (MapHandler.serve parse fb (pathsToUrls, wd) q).1 = pathsToUrls := by
    intro fb hfb wd q
    cases hget : GoMap.get pathsToUrls q.Path with
    | some url => exact hhit fb wd q url hget
    | none =>
      simp only [MapHandler.serve, hget]
      exact hfb _ q
  have hrun : ∀ (fb : SharingHandler), (∀ st q, (fb st q).1 = st.1) →
      ∀ (rs : List Request) (log : List String),
      ∀ e ∈ MapHandler.serveAll parse fb rs (pathsToUrls, log),
        e.1 = pathsToUrls ∧ e.2.1 = pathsToUrls
        ∧ ∃ q ∈ rs, ∃ before : List String,
            e.2.2 = (MapHandler.serve parse fb
              (pathsToUrls, { w := ResponseWriter.fresh, log := before }) q).2 := by
    intro fb hfb rs
    induction rs with
    | nil => intro log e he; simp [MapHandler.serveAll] at he
    | cons q rest ih =>
      intro log e he
      have hq := hkeep fb hfb { w := ResponseWriter.fresh, log := log } q
      simp only [MapHandler.serveAll, List.mem_cons] at he
      rcases he with he | he
      · subst he
        exact ⟨rfl, hq, q, List.mem_cons_self _ _, log, rfl⟩
      · rw [hq] at he
        obtain ⟨h1, h2, q2, hq2, before, h3⟩ := ih _ e he
        exact ⟨h1, h2, q2, List.mem_cons_of_mem _ hq2, before, h3⟩
  refine ⟨hhit fallback world r, fun hmiss => ?_, fun hfb => ?_, fun plain rs log e he => ?_⟩
  · simp [MapHandler.serve, hmiss]
  · refine ⟨hkeep fallback hfb world r, fun k => by rw [hkeep fallback hfb world r], ?_⟩
    intro rs log e he
    obtain ⟨h1, h2, _⟩ := hrun fallback hfb rs log e he
    exact ⟨h1, h2⟩
  · exact hrun (Handler.sharing plain) (fun _ _ => rfl) rs log e he

/-- C9, witness: a fallback without a reference to the table; in a run of two requests,
a miss and a hit, both are served against the table that was built and leave it so. -/
theorem MapHandler_serve_table_witness :
    (∀ st q, (Handler.sharing helloFallback st q).1 = st.1)
    ∧ (MapHandler.serveAll sampleParse (Handler.sharing helloFallback)
        [sampleRequest "GET" "/unknown", sampleRequest "GET" "/urlshort"]
        ([("/urlshort", sampleURL)], [])).length = 2
    ∧ ∀ e ∈ MapHandler.serveAll sampleParse (Handler.sharing helloFallback)
        [sampleRequest "GET" "/unknown", sampleRequest "GET" "/urlshort"]
        ([("/urlshort", sampleURL)], []),
        e.1 = [("/urlshort", sampleURL)] ∧ e.2.1 = [("/urlshort", sampleURL)] :=
  ⟨fun _ _ => rfl, rfl,
    ((MapHandler_serve_table sampleParse (Handler.sharing helloFallback)
      [("/urlshort", sampleURL)] freshWorld (sampleRequest "GET" "/unknown")).2.2.1
      (fun _ _ => rfl)).2.2
      [sampleRequest "GET" "/unknown", sampleRequest "GET" "/urlshort"] []⟩

/-- C9, as stated, fails: a fallback that holds the map of the handler and writes it.
After one request for `/unknown`, a miss, the table has a second entry; and in a run of
two such requests the second is served against the changed table, a hit that is
redirected where the first got the greeting of the fallback. -/
theorem MapHandler_fallback_writes_table :
    GoMap.get [("/urlshort", sampleURL)] "/unknown" = none
    ∧ (MapHandler.serve sampleParse recordingFallback ([("/urlshort", sampleURL)], freshWorld)
        (sampleRequest "GET" "/unknown")).1
        = [("/urlshort", sampleURL), ("/unknown", "/seen")]
    ∧ GoMap.get (MapHandler.serve sampleParse recordingFallback
        ([("/urlshort", sampleURL)], freshWorld) (sampleRequest "GET" "/unknown")).1 "/unknown"
        = some "/seen"
    ∧ (MapHandler.serveAll sampleParse recordingFallback
        [sampleRequest "POST" "/unknown", sampleRequest "POST" "/unknown"]
        ([("/urlshort", sampleURL)], [])).map (fun e => (e.1, e.2.2.w.status))
        = [([("/urlshort", sampleURL)], some 200),
            ([("/urlshort", sampleURL), ("/unknown", "/seen")], some 303)] := by
  refine ⟨by decide, by decide, by decide, by decide⟩

/-- C10: the branch depends on the path alone, compared with the keys character for
character. Two requests with the same path both redirect to the same mapped value or
both go to the fallback, whatever else differs between them; and a path that is none
of the keys is a miss. -/
theorem MapHandler_dispatch_on_exact_path (parse : URLParser) (pathsToUrls : GoMap)
    (fallback : Handler) (world : World) (r1 r2 : Request) (hpath : r1.Path = r2.Path) :
    ((∃ url, GoMap.get pathsToUrls r1.Path = some url
        ∧ MapHandler parse pathsToUrls fallback world r1
            = { w := Redirect parse world.w r1 url StatusSeeOther,
                log := world.log ++ ["Redirecting to " ++ url ++ "\n"] }
        ∧ MapHandler parse pathsToUrls fallback world r2
            = { w := Redirect parse world.w r2 url StatusSeeOther,
                log := world.log ++ ["Redirecting to " ++ url ++ "\n"] })
      ∨ ((∀ k ∈ GoMap.keys pathsToUrls, k ≠ r1.Path)
        ∧ MapHandler parse pathsToUrls fallback world r1
            = fallback (world.Printf ("No mapping found for " ++ r1.Path ++ "\n")) r1
        ∧ MapHandler parse pathsToUrls fallback world r2
            = fallback (world.Printf ("No mapping found for " ++ r1.Path ++ "\n")) r2))
    ∧ ((∀ k ∈ GoMap.keys pathsToUrls, k ≠ r1.Path) →
        MapHandler parse pathsToUrls fallback world r1
          = fallback (world.Printf ("No mapping found for " ++ r1.Path ++ "\n")) r1) := by
  have hmissOf : (∀ k ∈ GoMap.keys pathsToUrls, k ≠ r1.Path) →
      GoMap.get pathsToUrls r1.Path = none := by
    intro hall
    exact (GoMap.get_eq_none_iff pathsToUrls r1.Path).mpr (fun hin => hall _ hin rfl)
  refine ⟨?_, fun hall => ?_⟩
  · cases hget : GoMap.get pathsToUrls r1.Path with
    | some url =>
      left
      refine ⟨url, rfl, MapHandler.of_hit parse pathsToUrls fallback world r1 url hget, ?_⟩
      exact MapHandler.of_hit parse pathsToUrls fallback world r2 url (hpath ▸ hget)
    | none =>
      right
      have hnot := (GoMap.get_eq_none_iff pathsToUrls r1.Path).mp hget
      refine ⟨fun k hk heq => hnot (heq ▸ hk), ?_, ?_⟩
      · rw [MapHandler.of_miss parse pathsToUrls fallback world r1 hget]; rfl
      · rw [MapHandler.of_miss parse pathsToUrls fallback world r2 (hpath ▸ hget), ← hpath]; rfl
  · rw [MapHandler.of_miss parse pathsToUrls fallback world r1 (hmissOf hall)]; rfl

/-- C10, witness: with the one key `/urlshort`, a `GET` and a `POST` of `/urlshort/`
from different hosts both reach the fallback, the trailing slash making a miss. -/
theorem MapHandler_dispatch_on_exact_path_witness :
    (sampleRequest "GET" "/urlshort/").Path
      = ({ Method := "POST", Path := "/urlshort/", RawPath := "", RawQuery := "a=1",
            Host := "example.org",
            Header := [("Accept", ["text/html"])] } : Request).Path
    ∧ (∀ k ∈ GoMap.keys [("/urlshort", sampleURL)], k ≠ (sampleRequest "GET" "/urlshort/").Path)
    ∧ MapHandler sampleParse [("/urlshort", sampleURL)] helloFallback freshWorld
          (sampleRequest "GET" "/urlshort/")
        = helloFallback (freshWorld.Printf "No mapping found for /urlshort/\n")
            (sampleRequest "GET" "/urlshort/") :=
  ⟨rfl, by decide,
    (MapHandler_dispatch_on_exact_path sampleParse [("/urlshort", sampleURL)] helloFallback
      freshWorld (sampleRequest "GET" "/urlshort/")
      { Method := "POST", Path := "/urlshort/", RawPath := "", RawQuery := "a=1",
            Host := "example.org",
        Header := [("Accept", ["text/html"])] } rfl).2 (by decide)⟩

end Urlshort
